import Mathlib

/-!
Verification development for the resource/execution core of the Dragonball
micro-VM hypervisor (resource manager, address-space manager, vCPU manager).

The Rust sources embedded here are:
  - `src/dragonball/src/resource_manager.rs`
  - `src/dragonball/src/address_space_manager.rs`
  - `src/dragonball/src/vcpu/vcpu_manager.rs`

The `dbs-allocator` crate (`IntervalTree`, `Constraint`, `Range`), the
`dbs-boot` layout constants and the `dbs-device` resource types are external
to the sources at hand; they are modelled from the specification where so
marked.  Machine integers are modelled as `Nat`; the `u16`/`u32`/`u64`
overflow checks performed by the sources (`checked_add`) are made explicit.
Rust panics are modelled as `none` outcomes of `Option`-valued functions.
-/

namespace Dragonball

/-- Interval `[lo, hi]`, both bounds inclusive, mirroring `Range::new(min, max)`
of the allocator. -/
abbrev Interval := Nat × Nat

/-- Modelled from the spec: allocation requests carry a `Constraint`
(size, alignment, optional fixed min/max bounds).  `Constraint::new(size)`
defaults to the full `u64` domain with alignment 1. -/
structure Constraint where
  size : Nat
  cmin : Nat
  cmax : Nat
  calign : Nat
deriving Repr, DecidableEq

/-- Largest `u64` value, the default upper bound of a `Constraint`. -/
def u64Max : Nat := 2 ^ 64 - 1

/-- Mirror of `Constraint::new(size)`: min 0, max `u64::MAX`, alignment 1. -/
def Constraint.new (size : Nat) : Constraint := ⟨size, 0, u64Max, 1⟩

/-- Mirror of `Constraint::align(align)`. -/
def Constraint.align (c : Constraint) (a : Nat) : Constraint := { c with calign := a }

/-- Mirror of `Constraint::min(v)`. -/
def Constraint.min (c : Constraint) (v : Nat) : Constraint := { c with cmin := v }

/-- Mirror of `Constraint::max(v)`. -/
def Constraint.max (c : Constraint) (v : Nat) : Constraint := { c with cmax := v }

/-- Modelled from the spec: each resource pool is "backed by an interval tree
keyed on `[min,max]` integer ranges; each allocated interval stores no
payload (reservation only)".  The model keeps the inserted free ranges
(`capacity`) and the currently allocated intervals (`allocated`); the free
space is the capacity minus the allocated intervals, which is equivalent to
the tree's merged free nodes. -/
structure IntervalTree where
  capacity : List Interval
  allocated : List Interval
deriving Repr, DecidableEq

namespace IntervalTree

/-- Mirror of `IntervalTree::new()`. -/
def new : IntervalTree := ⟨[], []⟩

/-- Mirror of `IntervalTree::insert(range, None)`: record a free range. -/
def insert (t : IntervalTree) (r : Interval) : IntervalTree :=
  { t with capacity := t.capacity ++ [r] }

/-- Round `b` up to the next multiple of `a` (alignment 0 or 1 is no-op). -/
def alignUp (b a : Nat) : Nat := if a ≤ 1 then b else ((b + a - 1) / a) * a

/-- Does interval `x` overlap interval `y`?  Intervals are inclusive. -/
def overlaps (x y : Interval) : Bool := ¬ (x.2 < y.1 ∨ y.2 < x.1)

/-- Is base `b` feasible for constraint `c`: the candidate interval
`[b, b + size - 1]` lies inside a single free node (inside one capacity
range and apart from every allocated interval) and inside the constraint's
`[min, max]` bounds, with an aligned base. -/
def feasible (t : IntervalTree) (c : Constraint) (b : Nat) : Bool :=
  1 ≤ c.size &&
  c.cmin ≤ b &&
  b + c.size - 1 ≤ c.cmax &&
  (c.calign ≤ 1 || b % c.calign == 0) &&
  t.capacity.any (fun cap => cap.1 ≤ b && b + c.size - 1 ≤ cap.2) &&
  t.allocated.all (fun a => !overlaps (b, b + c.size - 1) a)

/-- Candidate bases: the lowest feasible base is the aligned start of some
free node, that is the (constraint-clamped, aligned) start of a capacity
range or of the gap following an allocated interval. -/
def candidates (t : IntervalTree) (c : Constraint) : List Nat :=
  (t.capacity.map (fun cap => Nat.max cap.1 c.cmin) ++
      t.allocated.map (fun a => Nat.max (a.2 + 1) c.cmin)).map
    (fun s => alignUp s c.calign)

/-- Smallest element of a list of naturals, if any. -/
def minList : List Nat → Option Nat
  | [] => none
  | x :: xs =>
    match minList xs with
    | none => some x
    | some m => some (Nat.min x m)

/-- Modelled from the spec: "the allocator returns the lowest free interval
satisfying the constraint, or fails".  On success the allocated interval is
recorded; on failure the tree is unchanged (the caller keeps the old tree). -/
def allocate (t : IntervalTree) (c : Constraint) : Option (Interval × IntervalTree) :=
  match minList ((candidates t c).filter (feasible t c)) with
  | none => none
  | some b =>
    let r : Interval := (b, b + c.size - 1)
    some (r, { t with allocated := r :: t.allocated })

/-- Mirror of `IntervalTree::update(key, ())`: the pools store the unit
payload only, so updating the payload of an allocated node changes nothing
observable in the model. -/
def update (t : IntervalTree) (_r : Interval) : IntervalTree := t

/-- Remove the first occurrence of `r`, or fail when `r` is absent. -/
def removeFirst (r : Interval) : List Interval → Option (List Interval)
  | [] => none
  | x :: xs =>
    if x = r then some xs
    else (removeFirst r xs).map (fun ys => x :: ys)

/-- Modelled from the spec: freeing an interval that was never allocated, or
double-freeing, is a programming error (panics); the panic is modelled as
`none`.  Freeing an allocated interval returns it to the free space. -/
def free (t : IntervalTree) (r : Interval) : Option IntervalTree :=
  (removeFirst r t.allocated).map (fun l => { t with allocated := l })

end IntervalTree

/-- Modelled from the spec: the `dbs-boot` layout constants
(`GUEST_MEM_START`, `GUEST_MEM_END`, `GUEST_PHYS_END`, `MMIO_LOW_START`,
`MMIO_LOW_END`, `IRQ_BASE`, `IRQ_MAX`), kept abstract because several of
them are probed from the host at run time. -/
structure Layout where
  guestMemStart : Nat
  guestMemEnd : Nat
  guestPhysEnd : Nat
  mmioLowStart : Nat
  mmioLowEnd : Nat
  irqBase : Nat
  irqMax : Nat
deriving Repr, DecidableEq

/-- Mirror of `SHARED_IRQ`: "The LEGACY_IRQ_BASE irq is reserved for sharing". -/
def Layout.sharedIrq (l : Layout) : Nat := l.irqBase

/-- Mirror of `MSI_IRQ_BASE` on x86/x86_64. -/
def MSI_IRQ_BASE : Nat := 24

/-- Mirror of `MSI_IRQ_MAX`. -/
def MSI_IRQ_MAX : Nat := 1023

/-- Mirror of `PIO_MIN`. -/
def PIO_MIN : Nat := 0

/-- Mirror of `PIO_MAX`. -/
def PIO_MAX : Nat := 0xFFFF

/-- Mirror of `KVM_USER_MEM_SLOTS`. -/
def KVM_USER_MEM_SLOTS : Nat := 509

/-- Mirror of `ResourceError`. -/
inductive ResourceError where
  | unknownResourceType
  | unknownResourceRange
  | noAvailResource
deriving Repr, DecidableEq

/-- Mirror of `ResourceManager` (and of `ResoureManagerBuilder`, whose
`build` merely wraps each pool in a mutex): six independent interval-tree
pools. -/
structure ResourceManager where
  legacy_irq_pool : IntervalTree
  msi_irq_pool : IntervalTree
  pio_pool : IntervalTree
  mmio_pool : IntervalTree
  mem_pool : IntervalTree
  kvm_mem_slot_pool : IntervalTree
deriving Repr, DecidableEq

namespace ResourceManager

/-- Mirror of `ResoureManagerBuilder::default()`. -/
def builderDefault : ResourceManager :=
  ⟨IntervalTree.new, IntervalTree.new, IntervalTree.new, IntervalTree.new,
    IntervalTree.new, IntervalTree.new⟩

/-- Mirror of `init_legacy_irq_pool`: the shared irq `LEGACY_IRQ_BASE` is not
inserted into the pool. -/
def init_legacy_irq_pool (l : Layout) (m : ResourceManager) : ResourceManager :=
  { m with legacy_irq_pool := m.legacy_irq_pool.insert (l.irqBase + 1, l.irqMax) }

/-- Mirror of `init_msi_irq_pool`. -/
def init_msi_irq_pool (m : ResourceManager) : ResourceManager :=
  { m with msi_irq_pool := m.msi_irq_pool.insert (MSI_IRQ_BASE, MSI_IRQ_MAX) }

/-- Mirror of `init_pio_pool`. -/
def init_pio_pool (m : ResourceManager) : ResourceManager :=
  { m with pio_pool := m.pio_pool.insert (PIO_MIN, PIO_MAX) }

/-- The x86 reservation constraint of `init_mmio_pool_helper`: 64 MiB plus
16 KiB just below 4 GiB for platform devices and the passthrough ipi. -/
def mmioReserveConstraint : Constraint :=
  ((Constraint.new 0x4004000).min (0x100000000 - 0x4004000)).max 0xffffffff

/-- The x86 reservation step of `init_mmio_pool_helper`: on x86_64, when
guest memory and the low MMIO hole intersect, reserve the platform-device
range (a failed reservation panics, modelled as `none`). -/
def mmioReserveStep (l : Layout) (t : IntervalTree) : Option IntervalTree :=
  if ¬ (l.guestMemEnd < l.mmioLowStart ∨ l.guestMemStart > l.mmioLowEnd ∨
      l.mmioLowStart = l.mmioLowEnd) then
    match t.allocate mmioReserveConstraint with
    | some (k, t2) => some (t2.update k)
    | none => none
  else some t

/-- Mirror of `init_mmio_pool_helper` (x86_64 configuration): insert the low
MMIO range, run the platform-device reservation, then insert the range above
guest memory. -/
def init_mmio_pool_helper (l : Layout) (mmio : IntervalTree) : Option IntervalTree :=
  (mmioReserveStep l (mmio.insert (l.mmioLowStart, l.mmioLowEnd))).map (fun t2 =>
    if l.guestMemEnd < l.guestPhysEnd then
      t2.insert (l.guestMemEnd + 1, l.guestPhysEnd)
    else t2)

/-- Mirror of `init_mmio_pool`. -/
def init_mmio_pool (l : Layout) (m : ResourceManager) : Option ResourceManager :=
  (init_mmio_pool_helper l m.mmio_pool).map (fun t => { m with mmio_pool := t })

/-- Mirror of `init_mem_pool_helper`: guest memory capacity, split around the
low MMIO hole when the two overlap. -/
def init_mem_pool_helper (l : Layout) (mem : IntervalTree) : IntervalTree :=
  if l.guestMemEnd < l.mmioLowStart ∨ l.guestMemStart > l.mmioLowEnd ∨
      l.mmioLowStart = l.mmioLowEnd then
    mem.insert (l.guestMemStart, l.guestMemEnd)
  else
    let t1 := if l.mmioLowStart > l.guestMemStart then
        mem.insert (l.guestMemStart, l.mmioLowStart - 1)
      else mem
    if l.mmioLowEnd < l.guestMemEnd then
      t1.insert (l.mmioLowEnd + 1, l.guestMemEnd)
    else t1

/-- Mirror of `init_mem_pool`. -/
def init_mem_pool (l : Layout) (m : ResourceManager) : ResourceManager :=
  { m with mem_pool := init_mem_pool_helper l m.mem_pool }

/-- Mirror of `init_kvm_mem_slot_pool`: `insert(Range::new(0, max_slots))`
where `max_slots` defaults to `KVM_USER_MEM_SLOTS`. -/
def init_kvm_mem_slot_pool (maxKvmMemSlot : Option Nat) (m : ResourceManager) :
    ResourceManager :=
  let max_slots := maxKvmMemSlot.getD KVM_USER_MEM_SLOTS
  { m with kvm_mem_slot_pool := m.kvm_mem_slot_pool.insert (0, max_slots) }

/-- Mirror of `ResourceManager::new(max_kvm_mem_slot)`; `none` models the
panic of the x86 MMIO reservation. -/
def new (l : Layout) (maxKvmMemSlot : Option Nat) : Option ResourceManager :=
  (init_mmio_pool l (init_pio_pool (init_msi_irq_pool
      (init_legacy_irq_pool l builderDefault)))).map
    (fun m => init_kvm_mem_slot_pool maxKvmMemSlot (init_mem_pool l m))

/-- Constraint of the given size, pinned to a fixed index when one is given;
mirrors the `let mut constraint = Constraint::new(size); if let Some(v) =
fixed { constraint.min = v; constraint.max = v; }` pattern of the source. -/
def fixedConstraint (size : Nat) (fixed : Option Nat) : Constraint :=
  match fixed with
  | some v => { Constraint.new size with cmin := v, cmax := v }
  | none => Constraint.new size

/-- Mirror of `allocate_legacy_irq(shared, fixed)`: a shared request returns
`SHARED_IRQ` without touching the pool. -/
def allocate_legacy_irq (l : Layout) (m : ResourceManager) (shared : Bool)
    (fixed : Option Nat) : Option Nat × ResourceManager :=
  if shared then (some l.sharedIrq, m)
  else
    match m.legacy_irq_pool.allocate (fixedConstraint 1 fixed) with
    | some (k, t) => (some k.1, { m with legacy_irq_pool := t.update k })
    | none => (none, m)

/-- Mirror of `free_legacy_irq(irq)`: freeing the shared irq does nothing;
an irq outside `[LEGACY_IRQ_BASE, LEGACY_IRQ_MAX]` panics (`none`). -/
def free_legacy_irq (l : Layout) (m : ResourceManager) (irq : Nat) :
    Option ResourceManager :=
  if irq = l.sharedIrq then some m
  else if ¬ (l.irqBase ≤ irq ∧ irq ≤ l.irqMax) then none
  else (m.legacy_irq_pool.free (irq, irq)).map
    (fun t => { m with legacy_irq_pool := t })

/-- Mirror of `allocate_msi_irq(count)`. -/
def allocate_msi_irq (m : ResourceManager) (count : Nat) :
    Option Nat × ResourceManager :=
  match m.msi_irq_pool.allocate (Constraint.new count) with
  | some (k, t) => (some k.1, { m with msi_irq_pool := t.update k })
  | none => (none, m)

/-- Mirror of `allocate_msi_irq_aligned(count)`. -/
def allocate_msi_irq_aligned (m : ResourceManager) (count : Nat) :
    Option Nat × ResourceManager :=
  match m.msi_irq_pool.allocate ((Constraint.new count).align count) with
  | some (k, t) => (some k.1, { m with msi_irq_pool := t.update k })
  | none => (none, m)

/-- Mirror of `free_msi_irq(irq, count)` with its explicit panic guards
(`irq < MSI_IRQ_BASE`, zero count, `u32` overflow of `irq + count`, or an end
beyond `MSI_IRQ_MAX`). -/
def free_msi_irq (m : ResourceManager) (irq count : Nat) : Option ResourceManager :=
  if irq < MSI_IRQ_BASE ∨ count = 0 ∨ irq + count ≥ 2 ^ 32 ∨
      irq + count - 1 > MSI_IRQ_MAX then none
  else (m.msi_irq_pool.free (irq, irq + count - 1)).map
    (fun t => { m with msi_irq_pool := t })

/-- Mirror of `allocate_pio_address(constraint)`. -/
def allocate_pio_address (m : ResourceManager) (c : Constraint) :
    Option Nat × ResourceManager :=
  match m.pio_pool.allocate c with
  | some (k, t) => (some k.1, { m with pio_pool := t.update k })
  | none => (none, m)

/-- Mirror of `allocate_pio_address_simple(size)`. -/
def allocate_pio_address_simple (m : ResourceManager) (size : Nat) :
    Option Nat × ResourceManager :=
  allocate_pio_address m (Constraint.new size)

/-- Mirror of `free_pio_address(base, size)`: `base.checked_add(size)` is a
`u16` addition, so a range reaching the top of the 16-bit space overflows the
check and panics (`none`); a zero size would make `Range::new(base, base - 1)`
invalid and also panics. -/
def free_pio_address (m : ResourceManager) (base size : Nat) : Option ResourceManager :=
  if base + size ≥ 2 ^ 16 then none
  else if size = 0 then none
  else (m.pio_pool.free (base, base + size - 1)).map
    (fun t => { m with pio_pool := t })

/-- Mirror of `allocate_mmio_address(constraint)` (no `update` call in the
source; the model's `update` is the identity anyway). -/
def allocate_mmio_address (m : ResourceManager) (c : Constraint) :
    Option Nat × ResourceManager :=
  match m.mmio_pool.allocate c with
  | some (k, t) => (some k.1, { m with mmio_pool := t })
  | none => (none, m)

/-- Mirror of `allocate_mmio_address_aligned(size, align)`. -/
def allocate_mmio_address_aligned (m : ResourceManager) (size align : Nat) :
    Option Nat × ResourceManager :=
  allocate_mmio_address m ((Constraint.new size).align align)

/-- Mirror of `free_mmio_address(base, size)` (`u64` overflow check; a zero
size panics through `Range::new`). -/
def free_mmio_address (m : ResourceManager) (base size : Nat) : Option ResourceManager :=
  if base + size ≥ 2 ^ 64 then none
  else if size = 0 then none
  else (m.mmio_pool.free (base, base + size - 1)).map
    (fun t => { m with mmio_pool := t })

/-- Mirror of `allocate_mem_address(constraint)`. -/
def allocate_mem_address (m : ResourceManager) (c : Constraint) :
    Option Nat × ResourceManager :=
  match m.mem_pool.allocate c with
  | some (k, t) => (some k.1, { m with mem_pool := t })
  | none => (none, m)

/-- Mirror of `free_mem_address(base, size)`: panics (`none`) when
`base + size` overflows `u64`, when `base < GUEST_MEM_START`, or when
`base + size > GUEST_MEM_END`; a zero size panics through `Range::new`. -/
def free_mem_address (l : Layout) (m : ResourceManager) (base size : Nat) :
    Option ResourceManager :=
  if base + size ≥ 2 ^ 64 ∨ base < l.guestMemStart ∨ base + size > l.guestMemEnd then
    none
  else if size = 0 then none
  else (m.mem_pool.free (base, base + size - 1)).map
    (fun t => { m with mem_pool := t })

/-- Mirror of `allocate_kvm_mem_slot(size, fixed)`. -/
def allocate_kvm_mem_slot (m : ResourceManager) (size : Nat) (fixed : Option Nat) :
    Option Nat × ResourceManager :=
  match m.kvm_mem_slot_pool.allocate (fixedConstraint size fixed) with
  | some (k, t) => (some k.1, { m with kvm_mem_slot_pool := t.update k })
  | none => (none, m)

/-- Mirror of `free_kvm_mem_slot(slot)`. -/
def free_kvm_mem_slot (m : ResourceManager) (slot : Nat) : Option ResourceManager :=
  (m.kvm_mem_slot_pool.free (slot, slot)).map
    (fun t => { m with kvm_mem_slot_pool := t })

end ResourceManager

/-- Concrete layout used to evaluate the model: an x86_64-like configuration
with the low MMIO hole in `[3 GiB, 4 GiB)`, 64 GiB of addressable guest
memory and legacy irqs `5..15`. -/
def witnessLayout : Layout :=
  ⟨0, 2 ^ 36 - 1, 2 ^ 40 - 1, 0xC0000000, 0xFFFFFFFF, 5, 15⟩

namespace IntervalTree

theorem minList_mem {xs : List Nat} {x : Nat} (h : minList xs = some x) : x ∈ xs := by
  induction xs with
  | nil => simp [minList] at h
  | cons a t ih =>
    unfold minList at h
    cases htl : minList t with
    | none =>
      rw [htl] at h
      simp only [Option.some.injEq] at h
      simp [h]
    | some m =>
      rw [htl] at h
      simp only [Option.some.injEq] at h
      rcases Nat.le_total a m with hle | hle
      · have : Nat.min a m = a := Nat.min_eq_left hle
        rw [this] at h
        simp [h]
      · have : Nat.min a m = m := Nat.min_eq_right hle
        rw [this] at h
        exact List.mem_cons_of_mem a (ih (h ▸ htl))

theorem allocate_eq_some {t : IntervalTree} {c : Constraint} {r : Interval}
    {t2 : IntervalTree} (h : t.allocate c = some (r, t2)) :
    feasible t c r.1 = true ∧ r.2 = r.1 + c.size - 1 ∧
      t2 = ⟨t.capacity, r :: t.allocated⟩ := by
  unfold allocate at h
  cases hm : minList ((candidates t c).filter (feasible t c)) with
  | none => rw [hm] at h; simp at h
  | some b =>
    rw [hm] at h
    simp only [Option.some.injEq, Prod.mk.injEq] at h
    obtain ⟨hr, ht2⟩ := h
    have hb : b ∈ (candidates t c).filter (feasible t c) := minList_mem hm
    have hfeas : feasible t c b = true := (List.mem_filter.mp hb).2
    subst hr
    exact ⟨hfeas, rfl, ht2.symm⟩

theorem removeFirst_cons_self {r : Interval} {l : List Interval} :
    removeFirst r (r :: l) = some l := by
  show (if r = r then some l else (removeFirst r l).map (fun ys => r :: ys)) = some l
  rw [if_pos rfl]

theorem feasible_size_pos {t : IntervalTree} {c : Constraint} {b : Nat}
    (h : feasible t c b = true) : 1 ≤ c.size := by
  unfold feasible at h
  simp only [Bool.and_eq_true, decide_eq_true_eq] at h
  exact h.1.1.1.1.1

theorem feasible_disjoint {t : IntervalTree} {c : Constraint} {b : Nat}
    (h : feasible t c b = true) :
    ∀ a ∈ t.allocated, overlaps (b, b + c.size - 1) a = false := by
  unfold feasible at h
  simp only [Bool.and_eq_true] at h
  have := h.2
  intro a ha
  have := List.all_eq_true.mp this a ha
  simpa using this

theorem allocate_size_pos {t : IntervalTree} {c : Constraint} {r : Interval}
    {t2 : IntervalTree} (h : t.allocate c = some (r, t2)) : 1 ≤ c.size :=
  feasible_size_pos (allocate_eq_some h).1

theorem allocate_range {t : IntervalTree} {c : Constraint} {r : Interval}
    {t2 : IntervalTree} (h : t.allocate c = some (r, t2)) :
    r.2 = r.1 + c.size - 1 := (allocate_eq_some h).2.1

theorem allocate_result {t : IntervalTree} {c : Constraint} {r : Interval}
    {t2 : IntervalTree} (h : t.allocate c = some (r, t2)) :
    t2 = ⟨t.capacity, r :: t.allocated⟩ := (allocate_eq_some h).2.2

theorem allocate_nonempty {t : IntervalTree} {c : Constraint} {r : Interval}
    {t2 : IntervalTree} (h : t.allocate c = some (r, t2)) : r.1 ≤ r.2 := by
  have h1 := allocate_size_pos h
  have h2 := allocate_range h
  omega

theorem allocate_disjoint {t : IntervalTree} {c : Constraint} {r : Interval}
    {t2 : IntervalTree} (h : t.allocate c = some (r, t2)) :
    ∀ a ∈ t.allocated, overlaps r a = false := by
  have h1 := (allocate_eq_some h).1
  have h2 := allocate_range h
  intro a ha
  have hd := feasible_disjoint h1 a ha
  rw [← h2] at hd
  exact hd

theorem ne_of_nonoverlap {r a : Interval} (hr : r.1 ≤ r.2)
    (h : overlaps r a = false) : r ≠ a := by
  intro he
  subst he
  unfold overlaps at h
  simp only [decide_eq_false_iff_not, not_or, not_lt] at h
  omega

theorem removeFirst_sublist {r : Interval} :
    ∀ {l l2 : List Interval}, removeFirst r l = some l2 → l2.Sublist l := by
  intro l
  induction l with
  | nil => intro l2 h; simp [removeFirst] at h
  | cons x xs ih =>
    intro l2 h
    unfold removeFirst at h
    by_cases hx : x = r
    · rw [if_pos hx] at h
      simp only [Option.some.injEq] at h
      subst h
      exact List.sublist_cons_self x xs
    · rw [if_neg hx] at h
      cases hrec : removeFirst r xs with
      | none => rw [hrec] at h; simp at h
      | some ys =>
        rw [hrec] at h
        simp only [Option.map_some', Option.some.injEq] at h
        subst h
        exact List.Sublist.cons₂ x (ih hrec)

theorem removeFirst_cons_ne {r x : Interval} {l : List Interval} (h : x ≠ r) :
    removeFirst r (x :: l) = (removeFirst r l).map (fun ys => x :: ys) := by
  show (if x = r then some l else (removeFirst r l).map (fun ys => x :: ys)) =
    (removeFirst r l).map (fun ys => x :: ys)
  rw [if_neg h]

end IntervalTree

namespace ResourceManager

/-- Helper: the explicit guard of `free_mem_address` fires whenever
`base + size` exceeds `GUEST_MEM_END`. -/
theorem free_mem_address_none_of_top (l : Layout) (m : ResourceManager)
    (base size : Nat) (h : l.guestMemEnd < base + size) :
    free_mem_address l m base size = none := by
  unfold free_mem_address
  rw [if_pos (by omega)]

/-- Helper: a failed kvm-slot allocation returns the manager unchanged. -/
theorem allocate_kvm_mem_slot_fail_unchanged (m : ResourceManager) (size : Nat)
    (fixed : Option Nat) (h : (allocate_kvm_mem_slot m size fixed).1 = none) :
    allocate_kvm_mem_slot m size fixed = (none, m) := by
  unfold allocate_kvm_mem_slot at h ⊢
  cases halloc : m.kvm_mem_slot_pool.allocate (fixedConstraint size fixed) with
  | some kt =>
    rw [halloc] at h
    obtain ⟨k, t⟩ := kt
    simp at h
  | none => simp only [halloc]

/-- Helper: the kvm memory-slot pool of a freshly built manager is the single
free range `[0, max_slots]` with nothing allocated. -/
theorem new_kvm_pool (l : Layout) (maxS : Option Nat) (m0 : ResourceManager)
    (h : new l maxS = some m0) :
    m0.kvm_mem_slot_pool =
      ⟨[(0, maxS.getD KVM_USER_MEM_SLOTS)], []⟩ := by
  unfold new at h
  cases hmm : init_mmio_pool l
      (init_pio_pool (init_msi_irq_pool (init_legacy_irq_pool l builderDefault))) with
  | none => rw [hmm] at h; simp at h
  | some mi =>
    rw [hmm] at h
    simp only [Option.map_some', Option.some.injEq] at h
    subst h
    have hkvm : mi.kvm_mem_slot_pool = IntervalTree.new := by
      unfold init_mmio_pool at hmm
      cases hh : init_mmio_pool_helper l
          (init_pio_pool (init_msi_irq_pool (init_legacy_irq_pool l builderDefault))).mmio_pool with
      | none => rw [hh] at hmm; simp at hmm
      | some t =>
        rw [hh] at hmm
        simp only [Option.map_some', Option.some.injEq] at hmm
        subst hmm
        rfl
    simp [init_kvm_mem_slot_pool, init_mem_pool, IntervalTree.insert, hkvm,
      IntervalTree.new]

/-- Helper: the mem pool of a freshly built manager always keeps a capacity
range whose upper end is `GUEST_MEM_END`, provided the MMIO hole ends below
guest memory. -/
theorem new_mem_pool_reaches_end (l : Layout) (maxS : Option Nat)
    (m0 : ResourceManager) (hl : l.mmioLowEnd < l.guestMemEnd)
    (h : new l maxS = some m0) :
    ∃ r ∈ m0.mem_pool.capacity, r.2 = l.guestMemEnd := by
  unfold new at h
  cases hmm : init_mmio_pool l
      (init_pio_pool (init_msi_irq_pool (init_legacy_irq_pool l builderDefault))) with
  | none => rw [hmm] at h; simp at h
  | some mi =>
    rw [hmm] at h
    simp only [Option.map_some', Option.some.injEq] at h
    subst h
    show ∃ r ∈ (init_kvm_mem_slot_pool maxS (init_mem_pool l mi)).mem_pool.capacity,
      r.2 = l.guestMemEnd
    have : (init_kvm_mem_slot_pool maxS (init_mem_pool l mi)).mem_pool =
        init_mem_pool_helper l mi.mem_pool := rfl
    rw [this]
    unfold init_mem_pool_helper
    by_cases hc : l.guestMemEnd < l.mmioLowStart ∨ l.guestMemStart > l.mmioLowEnd ∨
        l.mmioLowStart = l.mmioLowEnd
    · rw [if_pos hc]
      exact ⟨(l.guestMemStart, l.guestMemEnd), by simp [IntervalTree.insert], rfl⟩
    · rw [if_neg hc]
      rw [if_pos hl]
      exact ⟨(l.mmioLowEnd + 1, l.guestMemEnd), by simp [IntervalTree.insert], rfl⟩

end ResourceManager

/-- Single-slot kvm memory-slot allocation step, as issued by the address
space manager (`allocate_kvm_mem_slot(1, None)`). -/
def kvmAllocOne (m : ResourceManager) : Option Nat × ResourceManager :=
  m.allocate_kvm_mem_slot 1 none

/-- Concrete resource manager built with a configured maximum slot count of 3. -/
def kvmWitnessRM : ResourceManager :=
  (ResourceManager.new witnessLayout (some 3)).getD ResourceManager.builderDefault

/-- Helper: allocating one slot at a fixed index from a fresh slot pool
`[0, N]` succeeds exactly when the index is at most `N`. -/
theorem kvm_fixed_alloc_fresh (N v : Nat) :
    IntervalTree.allocate ⟨[(0, N)], []⟩ (ResourceManager.fixedConstraint 1 (some v)) =
      if v ≤ N then some ((v, v), ⟨[(0, N)], [(v, v)]⟩) else none := by
  by_cases h : v ≤ N <;>
    simp [IntervalTree.allocate, IntervalTree.candidates, IntervalTree.feasible,
      IntervalTree.minList, IntervalTree.alignUp, ResourceManager.fixedConstraint,
      Constraint.new, IntervalTree.overlaps, u64Max, h]

/-- Claim C5 counterexample: with a configured maximum slot count of N = 3,
the pool holds the identifiers 0..3; a fixed single-slot request at slot
index N = 3 ("at or beyond N") succeeds with slot 3, and the (N+1)-th
single-slot allocation also succeeds, contrary to the claim that both fail. -/
theorem kvm_slot_count_counterexample :
    ResourceManager.new witnessLayout (some 3) = some kvmWitnessRM ∧
    (kvmWitnessRM.allocate_kvm_mem_slot 1 (some 3)).1 = some 3 ∧
    (kvmAllocOne (kvmAllocOne (kvmAllocOne (kvmAllocOne kvmWitnessRM).2).2).2).1 =
      some 3 := by
  decide

/-- Claim C5 (amended): for a manager created with configured maximum slot
count N, the kvm memory-slot pool is the single inclusive range `[0, N]`,
holding N + 1 identifiers: a fixed single-slot request at index v succeeds on
the fresh pool exactly when `v ≤ N`; a fixed request strictly beyond N fails
recoverably (returns `none`) leaving the manager unchanged; any failed
kvm-slot allocation leaves the manager unchanged; and with N = 3 the first
four single-slot allocations return slots 0, 1, 2, 3 while the fifth fails
recoverably with the pool unchanged. -/
theorem kvm_slot_pool_exhaustion (l : Layout) (N v : Nat) (m0 : ResourceManager)
    (h : ResourceManager.new l (some N) = some m0) :
    m0.kvm_mem_slot_pool.capacity = [(0, N)] ∧
    ((m0.allocate_kvm_mem_slot 1 (some v)).1 = some v ↔ v ≤ N) ∧
    (N < v → m0.allocate_kvm_mem_slot 1 (some v) = (none, m0)) ∧
    (∀ m size fixed, (ResourceManager.allocate_kvm_mem_slot m size fixed).1 = none →
      ResourceManager.allocate_kvm_mem_slot m size fixed = (none, m)) ∧
    ((kvmAllocOne kvmWitnessRM).1 = some 0 ∧
      (kvmAllocOne (kvmAllocOne kvmWitnessRM).2).1 = some 1 ∧
      (kvmAllocOne (kvmAllocOne (kvmAllocOne kvmWitnessRM).2).2).1 = some 2 ∧
      (kvmAllocOne (kvmAllocOne (kvmAllocOne (kvmAllocOne kvmWitnessRM).2).2).2).1 =
        some 3 ∧
      kvmAllocOne
          (kvmAllocOne (kvmAllocOne (kvmAllocOne (kvmAllocOne kvmWitnessRM).2).2).2).2 =
        (none,
          (kvmAllocOne (kvmAllocOne (kvmAllocOne (kvmAllocOne kvmWitnessRM).2).2).2).2)) := by
  have hpool := ResourceManager.new_kvm_pool l (some N) m0 h
  simp only [Option.getD] at hpool
  refine ⟨by rw [hpool], ?_, ?_,
    fun m size fixed hf => ResourceManager.allocate_kvm_mem_slot_fail_unchanged m size fixed hf,
    by decide⟩
  · unfold ResourceManager.allocate_kvm_mem_slot
    rw [hpool, kvm_fixed_alloc_fresh]
    by_cases hv : v ≤ N
    · rw [if_pos hv]
      simp [hv]
    · rw [if_neg hv]
      simp [hv]
  · intro hv
    unfold ResourceManager.allocate_kvm_mem_slot
    rw [hpool, kvm_fixed_alloc_fresh, if_neg (by omega)]

/-- Witness for the amended C5 theorem at the concrete witness layout. -/
theorem kvm_slot_pool_exhaustion_witness :
    ResourceManager.new witnessLayout (some 3) = some kvmWitnessRM ∧
    (kvmWitnessRM.kvm_mem_slot_pool.capacity = [(0, 3)] ∧
    ((kvmWitnessRM.allocate_kvm_mem_slot 1 (some 4)).1 = some 4 ↔ 4 ≤ 3) ∧
    (3 < 4 → kvmWitnessRM.allocate_kvm_mem_slot 1 (some 4) = (none, kvmWitnessRM)) ∧
    (∀ m size fixed, (ResourceManager.allocate_kvm_mem_slot m size fixed).1 = none →
      ResourceManager.allocate_kvm_mem_slot m size fixed = (none, m)) ∧
    ((kvmAllocOne kvmWitnessRM).1 = some 0 ∧
      (kvmAllocOne (kvmAllocOne kvmWitnessRM).2).1 = some 1 ∧
      (kvmAllocOne (kvmAllocOne (kvmAllocOne kvmWitnessRM).2).2).1 = some 2 ∧
      (kvmAllocOne (kvmAllocOne (kvmAllocOne (kvmAllocOne kvmWitnessRM).2).2).2).1 =
        some 3 ∧
      kvmAllocOne
          (kvmAllocOne (kvmAllocOne (kvmAllocOne (kvmAllocOne kvmWitnessRM).2).2).2).2 =
        (none,
          (kvmAllocOne (kvmAllocOne (kvmAllocOne (kvmAllocOne kvmWitnessRM).2).2).2).2))) :=
  ⟨by decide, kvm_slot_pool_exhaustion witnessLayout 3 4 kvmWitnessRM (by decide)⟩

/-- Allocated intervals of a pool are pairwise non-overlapping. -/
def NoOverlap (t : IntervalTree) : Prop :=
  t.allocated.Pairwise (fun a b => IntervalTree.overlaps a b = false)

/-- Every pool of a resource manager satisfies `NoOverlap`. -/
def AllPoolsNoOverlap (m : ResourceManager) : Prop :=
  NoOverlap m.legacy_irq_pool ∧ NoOverlap m.msi_irq_pool ∧ NoOverlap m.pio_pool ∧
    NoOverlap m.mmio_pool ∧ NoOverlap m.mem_pool ∧ NoOverlap m.kvm_mem_slot_pool

theorem NoOverlap_allocate {t t2 : IntervalTree} {c : Constraint} {r : Interval}
    (h : NoOverlap t) (ha : t.allocate c = some (r, t2)) : NoOverlap t2 := by
  have hres := IntervalTree.allocate_result ha
  subst hres
  exact List.Pairwise.cons (fun a ha' => IntervalTree.allocate_disjoint ha a ha') h

theorem NoOverlap_free {t t2 : IntervalTree} {r : Interval}
    (h : NoOverlap t) (hf : t.free r = some t2) : NoOverlap t2 := by
  unfold IntervalTree.free at hf
  cases hr : IntervalTree.removeFirst r t.allocated with
  | none => rw [hr] at hf; simp at hf
  | some l2 =>
    rw [hr] at hf
    simp only [Option.map_some', Option.some.injEq] at hf
    subst hf
    exact List.Pairwise.sublist (IntervalTree.removeFirst_sublist hr) h

theorem NoOverlap_insert {t : IntervalTree} {r : Interval} (h : NoOverlap t) :
    NoOverlap (t.insert r) := h

theorem NoOverlap_new : NoOverlap IntervalTree.new := List.Pairwise.nil

/-- A pool with nothing allocated is trivially non-overlapping. -/
theorem NoOverlap_of_allocated_nil {t : IntervalTree} (h : t.allocated = []) :
    NoOverlap t := by
  unfold NoOverlap
  rw [h]
  exact List.Pairwise.nil

/-- Helper: the mem-pool initialization only inserts capacity ranges and
leaves the allocated list untouched. -/
theorem init_mem_pool_helper_allocated (l : Layout) (t : IntervalTree) :
    (ResourceManager.init_mem_pool_helper l t).allocated = t.allocated := by
  unfold ResourceManager.init_mem_pool_helper
  split_ifs <;> rfl

/-- Helper: the x86 platform-device reservation preserves `NoOverlap`. -/
theorem mmioReserveStep_no_overlap {l : Layout} {t0 t : IntervalTree}
    (h0 : NoOverlap t0) (h : ResourceManager.mmioReserveStep l t0 = some t) :
    NoOverlap t := by
  unfold ResourceManager.mmioReserveStep at h
  by_cases hc : ¬ (l.guestMemEnd < l.mmioLowStart ∨ l.guestMemStart > l.mmioLowEnd ∨
      l.mmioLowStart = l.mmioLowEnd)
  · rw [if_pos hc] at h
    cases ha : t0.allocate ResourceManager.mmioReserveConstraint with
    | none => rw [ha] at h; simp at h
    | some kt =>
      obtain ⟨k, t2⟩ := kt
      rw [ha] at h
      simp only [Option.some.injEq] at h
      subst h
      exact NoOverlap_allocate h0 ha
  · rw [if_neg hc] at h
    simp only [Option.some.injEq] at h
    subst h
    exact h0

/-- Helper: the x86 MMIO pool initialization preserves `NoOverlap`. -/
theorem init_mmio_pool_helper_no_overlap {l : Layout} {t0 t : IntervalTree}
    (h0 : NoOverlap t0) (h : ResourceManager.init_mmio_pool_helper l t0 = some t) :
    NoOverlap t := by
  unfold ResourceManager.init_mmio_pool_helper at h
  cases hr : ResourceManager.mmioReserveStep l
      (t0.insert (l.mmioLowStart, l.mmioLowEnd)) with
  | none => rw [hr] at h; simp at h
  | some t2 =>
    rw [hr] at h
    simp only [Option.map_some', Option.some.injEq] at h
    subst h
    have h2 := mmioReserveStep_no_overlap (NoOverlap_insert h0) hr
    by_cases hg : l.guestMemEnd < l.guestPhysEnd
    · rw [if_pos hg]; exact NoOverlap_insert h2
    · rw [if_neg hg]; exact h2

/-- Helper: every pool of a freshly built manager is pairwise
non-overlapping. -/
theorem new_all_pools_no_overlap {l : Layout} {maxS : Option Nat}
    {m0 : ResourceManager} (h : ResourceManager.new l maxS = some m0) :
    AllPoolsNoOverlap m0 := by
  unfold ResourceManager.new at h
  cases hmm : ResourceManager.init_mmio_pool l
      (ResourceManager.init_pio_pool (ResourceManager.init_msi_irq_pool
        (ResourceManager.init_legacy_irq_pool l ResourceManager.builderDefault))) with
  | none => rw [hmm] at h; simp at h
  | some mi =>
    rw [hmm] at h
    simp only [Option.map_some', Option.some.injEq] at h
    subst h
    unfold ResourceManager.init_mmio_pool at hmm
    cases hh : ResourceManager.init_mmio_pool_helper l
        (ResourceManager.init_pio_pool (ResourceManager.init_msi_irq_pool
          (ResourceManager.init_legacy_irq_pool l
            ResourceManager.builderDefault))).mmio_pool with
    | none => rw [hh] at hmm; simp at hmm
    | some t =>
      rw [hh] at hmm
      simp only [Option.map_some', Option.some.injEq] at hmm
      subst hmm
      exact ⟨NoOverlap_of_allocated_nil rfl, NoOverlap_of_allocated_nil rfl,
        NoOverlap_of_allocated_nil rfl,
        init_mmio_pool_helper_no_overlap (NoOverlap_of_allocated_nil rfl) hh,
        NoOverlap_of_allocated_nil ((init_mem_pool_helper_allocated l _).trans rfl),
        NoOverlap_of_allocated_nil rfl⟩

/-- Operation alphabet over the manager-level allocate/free entry points of
the resource manager. -/
inductive RMOp where
  | allocLegacy (shared : Bool) (fixed : Option Nat)
  | freeLegacy (irq : Nat)
  | allocMsi (count : Nat)
  | allocMsiAligned (count : Nat)
  | freeMsi (irq count : Nat)
  | allocPio (c : Constraint)
  | freePio (base size : Nat)
  | allocMmio (c : Constraint)
  | freeMmio (base size : Nat)
  | allocMem (c : Constraint)
  | freeMem (base size : Nat)
  | allocKvmSlot (size : Nat) (fixed : Option Nat)
  | freeKvmSlot (slot : Nat)
deriving Repr, DecidableEq

/-- One manager-level operation: allocation failures leave the manager
unchanged, a panicking free halts the sequence (`none`). -/
def RMStep (l : Layout) (m : ResourceManager) : RMOp → Option ResourceManager
  | .allocLegacy s f => some (ResourceManager.allocate_legacy_irq l m s f).2
  | .freeLegacy irq => ResourceManager.free_legacy_irq l m irq
  | .allocMsi c => some (ResourceManager.allocate_msi_irq m c).2
  | .allocMsiAligned c => some (ResourceManager.allocate_msi_irq_aligned m c).2
  | .freeMsi irq count => ResourceManager.free_msi_irq m irq count
  | .allocPio c => some (ResourceManager.allocate_pio_address m c).2
  | .freePio base size => ResourceManager.free_pio_address m base size
  | .allocMmio c => some (ResourceManager.allocate_mmio_address m c).2
  | .freeMmio base size => ResourceManager.free_mmio_address m base size
  | .allocMem c => some (ResourceManager.allocate_mem_address m c).2
  | .freeMem base size => ResourceManager.free_mem_address l m base size
  | .allocKvmSlot size fixed => some (ResourceManager.allocate_kvm_mem_slot m size fixed).2
  | .freeKvmSlot slot => ResourceManager.free_kvm_mem_slot m slot

/-- Run a sequence of manager-level operations. -/
def RMRun (l : Layout) (m : ResourceManager) : List RMOp → Option ResourceManager
  | [] => some m
  | op :: ops => (RMStep l m op).bind (fun m2 => RMRun l m2 ops)

theorem RMStep_preserves_no_overlap (l : Layout) (m m2 : ResourceManager) (op : RMOp)
    (h : AllPoolsNoOverlap m) (hs : RMStep l m op = some m2) : AllPoolsNoOverlap m2 := by
  obtain ⟨h1, h2, h3, h4, h5, h6⟩ := h
  cases op with
  | allocLegacy s f =>
    simp only [RMStep, Option.some.injEq] at hs
    subst hs
    unfold ResourceManager.allocate_legacy_irq
    cases s with
    | true => exact ⟨h1, h2, h3, h4, h5, h6⟩
    | false =>
      cases ha : m.legacy_irq_pool.allocate (ResourceManager.fixedConstraint 1 f) with
      | none => simp only [ha]; exact ⟨h1, h2, h3, h4, h5, h6⟩
      | some kt =>
        obtain ⟨k, t2⟩ := kt
        simp only [ha]
        exact ⟨NoOverlap_allocate h1 ha, h2, h3, h4, h5, h6⟩
  | freeLegacy irq =>
    simp only [RMStep] at hs
    unfold ResourceManager.free_legacy_irq at hs
    by_cases hi : irq = l.sharedIrq
    · rw [if_pos hi] at hs
      simp only [Option.some.injEq] at hs
      subst hs
      exact ⟨h1, h2, h3, h4, h5, h6⟩
    · rw [if_neg hi] at hs
      by_cases hb : ¬ (l.irqBase ≤ irq ∧ irq ≤ l.irqMax)
      · rw [if_pos hb] at hs; simp at hs
      · rw [if_neg hb] at hs
        cases hf : m.legacy_irq_pool.free (irq, irq) with
        | none => rw [hf] at hs; simp at hs
        | some t2 =>
          rw [hf] at hs
          simp only [Option.map_some', Option.some.injEq] at hs
          subst hs
          exact ⟨NoOverlap_free h1 hf, h2, h3, h4, h5, h6⟩
  | allocMsi c =>
    simp only [RMStep, Option.some.injEq] at hs
    subst hs
    unfold ResourceManager.allocate_msi_irq
    cases ha : m.msi_irq_pool.allocate (Constraint.new c) with
    | none => simp only [ha]; exact ⟨h1, h2, h3, h4, h5, h6⟩
    | some kt =>
      obtain ⟨k, t2⟩ := kt
      simp only [ha]
      exact ⟨h1, NoOverlap_allocate h2 ha, h3, h4, h5, h6⟩
  | allocMsiAligned c =>
    simp only [RMStep, Option.some.injEq] at hs
    subst hs
    unfold ResourceManager.allocate_msi_irq_aligned
    cases ha : m.msi_irq_pool.allocate ((Constraint.new c).align c) with
    | none => simp only [ha]; exact ⟨h1, h2, h3, h4, h5, h6⟩
    | some kt =>
      obtain ⟨k, t2⟩ := kt
      simp only [ha]
      exact ⟨h1, NoOverlap_allocate h2 ha, h3, h4, h5, h6⟩
  | freeMsi irq count =>
    simp only [RMStep] at hs
    unfold ResourceManager.free_msi_irq at hs
    by_cases hg : irq < MSI_IRQ_BASE ∨ count = 0 ∨ irq + count ≥ 2 ^ 32 ∨
        irq + count - 1 > MSI_IRQ_MAX
    · rw [if_pos hg] at hs; simp at hs
    · rw [if_neg hg] at hs
      cases hf : m.msi_irq_pool.free (irq, irq + count - 1) with
      | none => rw [hf] at hs; simp at hs
      | some t2 =>
        rw [hf] at hs
        simp only [Option.map_some', Option.some.injEq] at hs
        subst hs
        exact ⟨h1, NoOverlap_free h2 hf, h3, h4, h5, h6⟩
  | allocPio c =>
    simp only [RMStep, Option.some.injEq] at hs
    subst hs
    unfold ResourceManager.allocate_pio_address
    cases ha : m.pio_pool.allocate c with
    | none => simp only [ha]; exact ⟨h1, h2, h3, h4, h5, h6⟩
    | some kt =>
      obtain ⟨k, t2⟩ := kt
      simp only [ha]
      exact ⟨h1, h2, NoOverlap_allocate h3 ha, h4, h5, h6⟩
  | freePio base size =>
    simp only [RMStep] at hs
    unfold ResourceManager.free_pio_address at hs
    by_cases hg : base + size ≥ 2 ^ 16
    · rw [if_pos hg] at hs; simp at hs
    · rw [if_neg hg] at hs
      by_cases hz : size = 0
      · rw [if_pos hz] at hs; simp at hs
      · rw [if_neg hz] at hs
        cases hf : m.pio_pool.free (base, base + size - 1) with
        | none => rw [hf] at hs; simp at hs
        | some t2 =>
          rw [hf] at hs
          simp only [Option.map_some', Option.some.injEq] at hs
          subst hs
          exact ⟨h1, h2, NoOverlap_free h3 hf, h4, h5, h6⟩
  | allocMmio c =>
    simp only [RMStep, Option.some.injEq] at hs
    subst hs
    unfold ResourceManager.allocate_mmio_address
    cases ha : m.mmio_pool.allocate c with
    | none => simp only [ha]; exact ⟨h1, h2, h3, h4, h5, h6⟩
    | some kt =>
      obtain ⟨k, t2⟩ := kt
      simp only [ha]
      exact ⟨h1, h2, h3, NoOverlap_allocate h4 ha, h5, h6⟩
  | freeMmio base size =>
    simp only [RMStep] at hs
    unfold ResourceManager.free_mmio_address at hs
    by_cases hg : base + size ≥ 2 ^ 64
    · rw [if_pos hg] at hs; simp at hs
    · rw [if_neg hg] at hs
      by_cases hz : size = 0
      · rw [if_pos hz] at hs; simp at hs
      · rw [if_neg hz] at hs
        cases hf : m.mmio_pool.free (base, base + size - 1) with
        | none => rw [hf] at hs; simp at hs
        | some t2 =>
          rw [hf] at hs
          simp only [Option.map_some', Option.some.injEq] at hs
          subst hs
          exact ⟨h1, h2, h3, NoOverlap_free h4 hf, h5, h6⟩
  | allocMem c =>
    simp only [RMStep, Option.some.injEq] at hs
    subst hs
    unfold ResourceManager.allocate_mem_address
    cases ha : m.mem_pool.allocate c with
    | none => simp only [ha]; exact ⟨h1, h2, h3, h4, h5, h6⟩
    | some kt =>
      obtain ⟨k, t2⟩ := kt
      simp only [ha]
      exact ⟨h1, h2, h3, h4, NoOverlap_allocate h5 ha, h6⟩
  | freeMem base size =>
    simp only [RMStep] at hs
    unfold ResourceManager.free_mem_address at hs
    by_cases hg : base + size ≥ 2 ^ 64 ∨ base < l.guestMemStart ∨
        base + size > l.guestMemEnd
    · rw [if_pos hg] at hs; simp at hs
    · rw [if_neg hg] at hs
      by_cases hz : size = 0
      · rw [if_pos hz] at hs; simp at hs
      · rw [if_neg hz] at hs
        cases hf : m.mem_pool.free (base, base + size - 1) with
        | none => rw [hf] at hs; simp at hs
        | some t2 =>
          rw [hf] at hs
          simp only [Option.map_some', Option.some.injEq] at hs
          subst hs
          exact ⟨h1, h2, h3, h4, NoOverlap_free h5 hf, h6⟩
  | allocKvmSlot size fixed =>
    simp only [RMStep, Option.some.injEq] at hs
    subst hs
    unfold ResourceManager.allocate_kvm_mem_slot
    cases ha : m.kvm_mem_slot_pool.allocate (ResourceManager.fixedConstraint size fixed) with
    | none => simp only [ha]; exact ⟨h1, h2, h3, h4, h5, h6⟩
    | some kt =>
      obtain ⟨k, t2⟩ := kt
      simp only [ha]
      exact ⟨h1, h2, h3, h4, h5, NoOverlap_allocate h6 ha⟩
  | freeKvmSlot slot =>
    simp only [RMStep] at hs
    unfold ResourceManager.free_kvm_mem_slot at hs
    cases hf : m.kvm_mem_slot_pool.free (slot, slot) with
    | none => rw [hf] at hs; simp at hs
    | some t2 =>
      rw [hf] at hs
      simp only [Option.map_some', Option.some.injEq] at hs
      subst hs
      exact ⟨h1, h2, h3, h4, h5, NoOverlap_free h6 hf⟩

/-- Claim C2: for every sequence of manager-level allocate/free operations
applied to a resource manager constructed by `new`, the set of
currently-allocated intervals in every pool stays pairwise non-overlapping
(the statement quantifies over all operation sequences, hence holds at all
times). -/
theorem pools_never_overlap (l : Layout) (maxS : Option Nat)
    (m0 m2 : ResourceManager) (ops : List RMOp)
    (h0 : ResourceManager.new l maxS = some m0)
    (hrun : RMRun l m0 ops = some m2) : AllPoolsNoOverlap m2 := by
  have hinv : AllPoolsNoOverlap m0 := new_all_pools_no_overlap h0
  clear h0
  induction ops generalizing m0 with
  | nil =>
    unfold RMRun at hrun
    simp only [Option.some.injEq] at hrun
    subst hrun
    exact hinv
  | cons op ops ih =>
    unfold RMRun at hrun
    cases hstep : RMStep l m0 op with
    | none => rw [hstep] at hrun; simp at hrun
    | some m1 =>
      rw [hstep] at hrun
      simp only [Option.some_bind] at hrun
      exact ih m1 hrun (RMStep_preserves_no_overlap l m0 m1 op hinv hstep)

/-- Concrete operation sequence exercising four pools. -/
def c2WitnessOps : List RMOp :=
  [RMOp.allocLegacy false none, RMOp.allocPio (Constraint.new 8),
    RMOp.allocMem (Constraint.new 4096), RMOp.allocKvmSlot 1 none,
    RMOp.freeLegacy 6]

/-- Concrete manager state reached by `c2WitnessOps`. -/
def c2WitnessResult : ResourceManager :=
  (RMRun witnessLayout kvmWitnessRM c2WitnessOps).getD ResourceManager.builderDefault

/-- Witness for claim C2 on a concrete operation sequence. -/
theorem pools_never_overlap_witness :
    ResourceManager.new witnessLayout (some 3) = some kvmWitnessRM ∧
    RMRun witnessLayout kvmWitnessRM c2WitnessOps = some c2WitnessResult ∧
    AllPoolsNoOverlap c2WitnessResult :=
  ⟨by decide, by decide,
    pools_never_overlap witnessLayout (some 3) kvmWitnessRM c2WitnessResult
      c2WitnessOps (by decide) (by decide)⟩

/-- Mirror of `MsiIrqType` of dbs-device (variants as used by the source). -/
inductive MsiIrqType where
  | pciMsi
  | pciMsix
  | genericMsi
deriving Repr, DecidableEq

/-- Modelled from the spec: the `Resource` enum of dbs-device, the typed
resource descriptors collected into a `DeviceResources` vector; MAC
addresses are carried opaquely (they hold no pool resource). -/
inductive Resource where
  | pioAddressRange (base size : Nat)
  | mmioAddressRange (base size : Nat)
  | memAddressRange (base size : Nat)
  | legacyIrq (irq : Nat)
  | msiIrq (ty : MsiIrqType) (base size : Nat)
  | kvmMemSlot (slot : Nat)
  | macAddress (idx : Nat)
deriving Repr, DecidableEq

/-- Modelled from the spec: the `ResourceConstraint` enum of dbs-device, the
typed allocation requests accepted by `allocate_device_resources`. -/
inductive ResourceConstraint where
  | pioAddress (range : Option (Nat × Nat)) (align size : Nat)
  | mmioAddress (range : Option (Nat × Nat)) (align size : Nat)
  | memAddress (range : Option (Nat × Nat)) (align size : Nat)
  | legacyIrq (irq : Option Nat)
  | pciMsiIrq (size : Nat)
  | pciMsixIrq (size : Nat)
  | genericIrq (size : Nat)
  | kvmMemSlot (slot : Option Nat) (size : Nat)
deriving Repr, DecidableEq

/-- Mirror of the per-request constraint building of
`allocate_device_resources`: `Constraint::new(size).align(align)` with the
optional range becoming the min/max bounds. -/
def rangeConstraint (range : Option (Nat × Nat)) (align size : Nat) : Constraint :=
  match range with
  | some r => { (Constraint.new size).align align with cmin := r.1, cmax := r.2 }
  | none => (Constraint.new size).align align

namespace ResourceManager

/-- One arm of the `match` of `allocate_device_resources`: allocate the
resource requested by one `ResourceConstraint`. -/
def allocateOneResource (l : Layout) (shared_irq : Bool) (m : ResourceManager) :
    ResourceConstraint → Option Resource × ResourceManager
  | .pioAddress range align size =>
    match allocate_pio_address m (rangeConstraint range align size) with
    | (some base, m2) => (some (Resource.pioAddressRange base size), m2)
    | (none, m2) => (none, m2)
  | .mmioAddress range align size =>
    match allocate_mmio_address m (rangeConstraint range align size) with
    | (some base, m2) => (some (Resource.mmioAddressRange base size), m2)
    | (none, m2) => (none, m2)
  | .memAddress range align size =>
    match allocate_mem_address m (rangeConstraint range align size) with
    | (some base, m2) => (some (Resource.memAddressRange base size), m2)
    | (none, m2) => (none, m2)
  | .legacyIrq irq =>
    match allocate_legacy_irq l m shared_irq irq with
    | (some v, m2) => (some (Resource.legacyIrq v), m2)
    | (none, m2) => (none, m2)
  | .pciMsiIrq size =>
    match allocate_msi_irq_aligned m size with
    | (some base, m2) => (some (Resource.msiIrq MsiIrqType.pciMsi base size), m2)
    | (none, m2) => (none, m2)
  | .pciMsixIrq size =>
    match allocate_msi_irq m size with
    | (some base, m2) => (some (Resource.msiIrq MsiIrqType.pciMsix base size), m2)
    | (none, m2) => (none, m2)
  | .genericIrq size =>
    match allocate_msi_irq m size with
    | (some base, m2) => (some (Resource.msiIrq MsiIrqType.genericMsi base size), m2)
    | (none, m2) => (none, m2)
  | .kvmMemSlot slot size =>
    match allocate_kvm_mem_slot m size slot with
    | (some v, m2) => (some (Resource.kvmMemSlot v), m2)
    | (none, m2) => (none, m2)

/-- One arm of the `match` of `free_device_resources`. -/
def freeOneResource (l : Layout) (m : ResourceManager) :
    Resource → Option ResourceManager
  | .pioAddressRange base size => free_pio_address m base size
  | .mmioAddressRange base size => free_mmio_address m base size
  | .memAddressRange base size => free_mem_address l m base size
  | .legacyIrq irq => free_legacy_irq l m irq
  | .msiIrq _ base size => free_msi_irq m base size
  | .kvmMemSlot slot => free_kvm_mem_slot m slot
  | .macAddress _ => some m

/-- Mirror of `free_device_resources(resources)`: free each collected
resource in order; a panicking free aborts (`none`). -/
def free_device_resources (l : Layout) (m : ResourceManager) :
    List Resource → Option ResourceManager
  | [] => some m
  | r :: rest => (freeOneResource l m r).bind (fun m2 => free_device_resources l m2 rest)

/-- The request loop of `allocate_device_resources`: on the first allocation
failure, free every resource already granted in this call
(`free_allocated_resources`) and fail with `NoAvailResource`. -/
def allocate_device_resources_loop (l : Layout) (shared_irq : Bool) :
    List ResourceConstraint → List Resource → ResourceManager →
    Option (Except ResourceError (List Resource) × ResourceManager)
  | [], acc, m => some (Except.ok acc, m)
  | req :: rest, acc, m =>
    match allocateOneResource l shared_irq m req with
    | (some res, m2) => allocate_device_resources_loop l shared_irq rest (acc ++ [res]) m2
    | (none, m2) =>
      (free_device_resources l m2 acc).map
        (fun m3 => (Except.error ResourceError.noAvailResource, m3))

/-- Mirror of `allocate_device_resources(requests, shared_irq)`. -/
def allocate_device_resources (l : Layout) (m : ResourceManager)
    (requests : List ResourceConstraint) (shared_irq : Bool) :
    Option (Except ResourceError (List Resource) × ResourceManager) :=
  allocate_device_resources_loop l shared_irq requests [] m

end ResourceManager

/-- Identifier of one of the six pools of the resource manager. -/
inductive PoolId where
  | legacy
  | msi
  | pio
  | mmio
  | mem
  | kvmSlot
deriving Repr, DecidableEq

/-- Project the pool named by a `PoolId`. -/
def ResourceManager.getPool (m : ResourceManager) : PoolId → IntervalTree
  | .legacy => m.legacy_irq_pool
  | .msi => m.msi_irq_pool
  | .pio => m.pio_pool
  | .mmio => m.mmio_pool
  | .mem => m.mem_pool
  | .kvmSlot => m.kvm_mem_slot_pool

/-- Replace the pool named by a `PoolId`. -/
def ResourceManager.setPool (m : ResourceManager) : PoolId → IntervalTree → ResourceManager
  | .legacy, t => { m with legacy_irq_pool := t }
  | .msi, t => { m with msi_irq_pool := t }
  | .pio, t => { m with pio_pool := t }
  | .mmio, t => { m with mmio_pool := t }
  | .mem, t => { m with mem_pool := t }
  | .kvmSlot, t => { m with kvm_mem_slot_pool := t }

/-- Record one additional allocated interval in the pool named by `P`. -/
def ResourceManager.consAlloc (m : ResourceManager) (P : PoolId) (r : Interval) :
    ResourceManager :=
  m.setPool P ⟨(m.getPool P).capacity, r :: (m.getPool P).allocated⟩

/-- The pool and exact interval that `free_device_resources` will pass to the
pool-level `free` for a given resource; `none` when freeing is a no-op (the
shared legacy irq, MAC addresses). -/
def Resource.freeTarget (l : Layout) : Resource → Option (PoolId × Interval)
  | .pioAddressRange base size => some (PoolId.pio, (base, base + size - 1))
  | .mmioAddressRange base size => some (PoolId.mmio, (base, base + size - 1))
  | .memAddressRange base size => some (PoolId.mem, (base, base + size - 1))
  | .legacyIrq irq =>
    if irq = l.sharedIrq then none else some (PoolId.legacy, (irq, irq))
  | .msiIrq _ base size => some (PoolId.msi, (base, base + size - 1))
  | .kvmMemSlot slot => some (PoolId.kvmSlot, (slot, slot))
  | .macAddress _ => none

namespace IntervalTree

theorem overlaps_comm (x y : Interval) : overlaps x y = overlaps y x := by
  unfold overlaps
  exact decide_eq_decide.mpr (by tauto)

theorem overlaps_self {r : Interval} (h : r.1 ≤ r.2) : overlaps r r = true := by
  unfold overlaps
  simp only [decide_eq_true_eq]
  omega

theorem removeFirst_eq_none {r : Interval} {l : List Interval} (h : r ∉ l) :
    removeFirst r l = none := by
  induction l with
  | nil => rfl
  | cons x xs ih =>
    have hx : x ≠ r := fun he => h (he ▸ List.mem_cons_self x xs)
    rw [removeFirst_cons_ne hx, ih (fun hm => h (List.mem_cons_of_mem x hm))]
    rfl

theorem free_cons_self (t : IntervalTree) (r : Interval) :
    free ⟨t.capacity, r :: t.allocated⟩ r = some t := by
  unfold free
  rw [removeFirst_cons_self]
  rfl

theorem free_cons_ne {k rf : Interval} (t : IntervalTree) (h : k ≠ rf) :
    free ⟨t.capacity, k :: t.allocated⟩ rf =
      (free t rf).map (fun t2 => ⟨t2.capacity, k :: t2.allocated⟩) := by
  unfold free
  rw [removeFirst_cons_ne h]
  cases removeFirst rf t.allocated <;> rfl

theorem feasible_in_capacity {t : IntervalTree} {c : Constraint} {b : Nat}
    (h : feasible t c b = true) :
    ∃ cap ∈ t.capacity, cap.1 ≤ b ∧ b + c.size - 1 ≤ cap.2 := by
  unfold feasible at h
  simp only [Bool.and_eq_true] at h
  have hany := h.1.2
  obtain ⟨cap, hmem, hcap⟩ := List.any_eq_true.mp hany
  simp only [Bool.and_eq_true, decide_eq_true_eq] at hcap
  exact ⟨cap, hmem, hcap.1, hcap.2⟩

end IntervalTree

namespace ResourceManager

theorem setPool_getPool (m : ResourceManager) (P : PoolId) :
    m.setPool P (m.getPool P) = m := by
  cases P <;> rfl

theorem getPool_setPool_same (m : ResourceManager) (P : PoolId) (t : IntervalTree) :
    (m.setPool P t).getPool P = t := by
  cases P <;> rfl

theorem setPool_setPool (m : ResourceManager) (P : PoolId) (t t2 : IntervalTree) :
    (m.setPool P t).setPool P t2 = m.setPool P t2 := by
  cases P <;> rfl

theorem getPool_consAlloc_same (m : ResourceManager) (P : PoolId) (r : Interval) :
    (m.consAlloc P r).getPool P =
      ⟨(m.getPool P).capacity, r :: (m.getPool P).allocated⟩ := by
  cases P <;> rfl

theorem getPool_consAlloc_ne (m : ResourceManager) (P P' : PoolId) (r : Interval)
    (h : P' ≠ P) : (m.consAlloc P r).getPool P' = m.getPool P' := by
  cases P <;> cases P' <;> first | exact absurd rfl h | rfl

theorem setPool_consAlloc_ne (m : ResourceManager) (P P' : PoolId) (r : Interval)
    (t : IntervalTree) (h : P' ≠ P) :
    (m.consAlloc P r).setPool P' t = (m.setPool P' t).consAlloc P r := by
  cases P <;> cases P' <;> first | exact absurd rfl h | rfl

theorem getPool_capacity_consAlloc (m : ResourceManager) (P P' : PoolId) (r : Interval) :
    ((m.consAlloc P r).getPool P').capacity = (m.getPool P').capacity := by
  by_cases h : P' = P
  · subst h
    rw [getPool_consAlloc_same]
  · rw [getPool_consAlloc_ne m P P' r h]

theorem mem_allocated_consAlloc (m : ResourceManager) (P P' : PoolId) (r a : Interval)
    (ha : a ∈ (m.getPool P').allocated) :
    a ∈ ((m.consAlloc P r).getPool P').allocated := by
  by_cases h : P' = P
  · subst h
    rw [getPool_consAlloc_same]
    exact List.mem_cons_of_mem r ha
  · rw [getPool_consAlloc_ne m P P' r h]
    exact ha

end ResourceManager

/-- The legacy-IRQ pool capacity avoids the shared irq; `new` establishes
this by construction ("won't be allocated / reallocated"). -/
def LegacySafe (l : Layout) (m : ResourceManager) : Prop :=
  ∀ cap ∈ m.legacy_irq_pool.capacity, ¬ (cap.1 ≤ l.sharedIrq ∧ l.sharedIrq ≤ cap.2)

theorem legacySafe_consAlloc {l : Layout} {m : ResourceManager} {P : PoolId}
    {r : Interval} (h : LegacySafe l m) : LegacySafe l (m.consAlloc P r) := by
  intro cap hcap
  apply h cap
  have : (m.consAlloc P r).legacy_irq_pool.capacity = m.legacy_irq_pool.capacity :=
    ResourceManager.getPool_capacity_consAlloc m P PoolId.legacy r
  rw [this] at hcap
  exact hcap

/-- Helper: the legacy pool of a freshly built manager is the single free
range `[irqBase + 1, irqMax]` with nothing allocated. -/
theorem new_legacy_pool (l : Layout) (maxS : Option Nat) (m0 : ResourceManager)
    (h : ResourceManager.new l maxS = some m0) :
    m0.legacy_irq_pool = ⟨[(l.irqBase + 1, l.irqMax)], []⟩ := by
  unfold ResourceManager.new at h
  cases hmm : ResourceManager.init_mmio_pool l
      (ResourceManager.init_pio_pool (ResourceManager.init_msi_irq_pool
        (ResourceManager.init_legacy_irq_pool l ResourceManager.builderDefault))) with
  | none => rw [hmm] at h; simp at h
  | some mi =>
    rw [hmm] at h
    simp only [Option.map_some', Option.some.injEq] at h
    subst h
    unfold ResourceManager.init_mmio_pool at hmm
    cases hh : ResourceManager.init_mmio_pool_helper l
        (ResourceManager.init_pio_pool (ResourceManager.init_msi_irq_pool
          (ResourceManager.init_legacy_irq_pool l
            ResourceManager.builderDefault))).mmio_pool with
    | none => rw [hh] at hmm; simp at hmm
    | some t =>
      rw [hh] at hmm
      simp only [Option.map_some', Option.some.injEq] at hmm
      subst hmm
      rfl

theorem legacySafe_new {l : Layout} {maxS : Option Nat} {m0 : ResourceManager}
    (h : ResourceManager.new l maxS = some m0) : LegacySafe l m0 := by
  intro cap hcap
  rw [new_legacy_pool l maxS m0 h] at hcap
  simp only [List.mem_singleton] at hcap
  subst hcap
  unfold Layout.sharedIrq
  omega

namespace ResourceManager

theorem allocate_pio_address_fail {m m2 : ResourceManager} {c : Constraint}
    (h : allocate_pio_address m c = (none, m2)) : m2 = m := by
  unfold allocate_pio_address at h
  cases ha : m.pio_pool.allocate c with
  | some kt => obtain ⟨k, t⟩ := kt; rw [ha] at h; simp at h
  | none =>
    rw [ha] at h
    simp only [Prod.mk.injEq] at h
    exact h.2.symm

theorem allocate_mmio_address_fail {m m2 : ResourceManager} {c : Constraint}
    (h : allocate_mmio_address m c = (none, m2)) : m2 = m := by
  unfold allocate_mmio_address at h
  cases ha : m.mmio_pool.allocate c with
  | some kt => obtain ⟨k, t⟩ := kt; rw [ha] at h; simp at h
  | none =>
    rw [ha] at h
    simp only [Prod.mk.injEq] at h
    exact h.2.symm

theorem allocate_mem_address_fail {m m2 : ResourceManager} {c : Constraint}
    (h : allocate_mem_address m c = (none, m2)) : m2 = m := by
  unfold allocate_mem_address at h
  cases ha : m.mem_pool.allocate c with
  | some kt => obtain ⟨k, t⟩ := kt; rw [ha] at h; simp at h
  | none =>
    rw [ha] at h
    simp only [Prod.mk.injEq] at h
    exact h.2.symm

theorem allocate_msi_irq_fail {m m2 : ResourceManager} {count : Nat}
    (h : allocate_msi_irq m count = (none, m2)) : m2 = m := by
  unfold allocate_msi_irq at h
  cases ha : m.msi_irq_pool.allocate (Constraint.new count) with
  | some kt => obtain ⟨k, t⟩ := kt; rw [ha] at h; simp at h
  | none =>
    rw [ha] at h
    simp only [Prod.mk.injEq] at h
    exact h.2.symm

theorem allocate_msi_irq_aligned_fail {m m2 : ResourceManager} {count : Nat}
    (h : allocate_msi_irq_aligned m count = (none, m2)) : m2 = m := by
  unfold allocate_msi_irq_aligned at h
  cases ha : m.msi_irq_pool.allocate ((Constraint.new count).align count) with
  | some kt => obtain ⟨k, t⟩ := kt; rw [ha] at h; simp at h
  | none =>
    rw [ha] at h
    simp only [Prod.mk.injEq] at h
    exact h.2.symm

theorem allocate_kvm_mem_slot_fail {m m2 : ResourceManager} {size : Nat}
    {fixed : Option Nat} (h : allocate_kvm_mem_slot m size fixed = (none, m2)) :
    m2 = m := by
  unfold allocate_kvm_mem_slot at h
  cases ha : m.kvm_mem_slot_pool.allocate (fixedConstraint size fixed) with
  | some kt => obtain ⟨k, t⟩ := kt; rw [ha] at h; simp at h
  | none =>
    rw [ha] at h
    simp only [Prod.mk.injEq] at h
    exact h.2.symm

theorem allocate_legacy_irq_fail {l : Layout} {m m2 : ResourceManager} {s : Bool}
    {f : Option Nat} (h : allocate_legacy_irq l m s f = (none, m2)) : m2 = m := by
  unfold allocate_legacy_irq at h
  cases s with
  | true => simp at h
  | false =>
    simp only [Bool.false_eq_true, if_false] at h
    cases ha : m.legacy_irq_pool.allocate (fixedConstraint 1 f) with
    | some kt => obtain ⟨k, t⟩ := kt; rw [ha] at h; simp at h
    | none =>
      rw [ha] at h
      simp only [Prod.mk.injEq] at h
      exact h.2.symm

theorem allocateOneResource_fail {l : Layout} {s : Bool} {m m2 : ResourceManager}
    {req : ResourceConstraint}
    (h : allocateOneResource l s m req = (none, m2)) : m2 = m := by
  cases req with
  | pioAddress range align size =>
    simp only [allocateOneResource] at h
    cases hres : allocate_pio_address m (rangeConstraint range align size) with
    | mk o mm =>
      rw [hres] at h
      cases o with
      | some b => simp at h
      | none =>
        simp only [Prod.mk.injEq] at h
        rw [← h.2]
        exact allocate_pio_address_fail hres
  | mmioAddress range align size =>
    simp only [allocateOneResource] at h
    cases hres : allocate_mmio_address m (rangeConstraint range align size) with
    | mk o mm =>
      rw [hres] at h
      cases o with
      | some b => simp at h
      | none =>
        simp only [Prod.mk.injEq] at h
        rw [← h.2]
        exact allocate_mmio_address_fail hres
  | memAddress range align size =>
    simp only [allocateOneResource] at h
    cases hres : allocate_mem_address m (rangeConstraint range align size) with
    | mk o mm =>
      rw [hres] at h
      cases o with
      | some b => simp at h
      | none =>
        simp only [Prod.mk.injEq] at h
        rw [← h.2]
        exact allocate_mem_address_fail hres
  | legacyIrq irq =>
    simp only [allocateOneResource] at h
    cases hres : allocate_legacy_irq l m s irq with
    | mk o mm =>
      rw [hres] at h
      cases o with
      | some b => simp at h
      | none =>
        simp only [Prod.mk.injEq] at h
        rw [← h.2]
        exact allocate_legacy_irq_fail hres
  | pciMsiIrq size =>
    simp only [allocateOneResource] at h
    cases hres : allocate_msi_irq_aligned m size with
    | mk o mm =>
      rw [hres] at h
      cases o with
      | some b => simp at h
      | none =>
        simp only [Prod.mk.injEq] at h
        rw [← h.2]
        exact allocate_msi_irq_aligned_fail hres
  | pciMsixIrq size =>
    simp only [allocateOneResource] at h
    cases hres : allocate_msi_irq m size with
    | mk o mm =>
      rw [hres] at h
      cases o with
      | some b => simp at h
      | none =>
        simp only [Prod.mk.injEq] at h
        rw [← h.2]
        exact allocate_msi_irq_fail hres
  | genericIrq size =>
    simp only [allocateOneResource] at h
    cases hres : allocate_msi_irq m size with
    | mk o mm =>
      rw [hres] at h
      cases o with
      | some b => simp at h
      | none =>
        simp only [Prod.mk.injEq] at h
        rw [← h.2]
        exact allocate_msi_irq_fail hres
  | kvmMemSlot slot size =>
    simp only [allocateOneResource] at h
    cases hres : allocate_kvm_mem_slot m size slot with
    | mk o mm =>
      rw [hres] at h
      cases o with
      | some b => simp at h
      | none =>
        simp only [Prod.mk.injEq] at h
        rw [← h.2]
        exact allocate_kvm_mem_slot_fail hres

theorem freeOneResource_spec (l : Layout) (x : Resource) :
    (x.freeTarget l = none ∧ ∀ mm, freeOneResource l mm x = some mm) ∨
    (∃ P rf, x.freeTarget l = some (P, rf) ∧
      ((∀ mm, freeOneResource l mm x = none) ∨
        (∀ mm, freeOneResource l mm x =
          ((mm.getPool P).free rf).map (fun t => mm.setPool P t)))) := by
  cases x with
  | pioAddressRange base size =>
    right
    refine ⟨PoolId.pio, (base, base + size - 1), rfl, ?_⟩
    by_cases h1 : base + size ≥ 2 ^ 16
    · exact Or.inl (fun mm => by simp only [freeOneResource]; unfold free_pio_address; rw [if_pos h1])
    · by_cases h2 : size = 0
      · exact Or.inl (fun mm => by
          simp only [freeOneResource]; unfold free_pio_address
          rw [if_neg h1, if_pos h2])
      · exact Or.inr (fun mm => by
          simp only [freeOneResource]; unfold free_pio_address
          rw [if_neg h1, if_neg h2]
          rfl)
  | mmioAddressRange base size =>
    right
    refine ⟨PoolId.mmio, (base, base + size - 1), rfl, ?_⟩
    by_cases h1 : base + size ≥ 2 ^ 64
    · exact Or.inl (fun mm => by simp only [freeOneResource]; unfold free_mmio_address; rw [if_pos h1])
    · by_cases h2 : size = 0
      · exact Or.inl (fun mm => by
          simp only [freeOneResource]; unfold free_mmio_address
          rw [if_neg h1, if_pos h2])
      · exact Or.inr (fun mm => by
          simp only [freeOneResource]; unfold free_mmio_address
          rw [if_neg h1, if_neg h2]
          rfl)
  | memAddressRange base size =>
    right
    refine ⟨PoolId.mem, (base, base + size - 1), rfl, ?_⟩
    by_cases h1 : base + size ≥ 2 ^ 64 ∨ base < l.guestMemStart ∨
        base + size > l.guestMemEnd
    · exact Or.inl (fun mm => by simp only [freeOneResource]; unfold free_mem_address; rw [if_pos h1])
    · by_cases h2 : size = 0
      · exact Or.inl (fun mm => by
          simp only [freeOneResource]; unfold free_mem_address
          rw [if_neg h1, if_pos h2])
      · exact Or.inr (fun mm => by
          simp only [freeOneResource]; unfold free_mem_address
          rw [if_neg h1, if_neg h2]
          rfl)
  | legacyIrq irq =>
    by_cases hi : irq = l.sharedIrq
    · left
      constructor
      · simp only [Resource.freeTarget]
        rw [if_pos hi]
      · intro mm
        simp only [freeOneResource]; unfold free_legacy_irq
        rw [if_pos hi]
    · right
      refine ⟨PoolId.legacy, (irq, irq), ?_, ?_⟩
      · simp only [Resource.freeTarget]
        rw [if_neg hi]
      · by_cases hb : ¬ (l.irqBase ≤ irq ∧ irq ≤ l.irqMax)
        · exact Or.inl (fun mm => by
            simp only [freeOneResource]; unfold free_legacy_irq
            rw [if_neg hi, if_pos hb])
        · exact Or.inr (fun mm => by
            simp only [freeOneResource]; unfold free_legacy_irq
            rw [if_neg hi, if_neg hb]
            rfl)
  | msiIrq ty base size =>
    right
    refine ⟨PoolId.msi, (base, base + size - 1), rfl, ?_⟩
    by_cases h1 : base < MSI_IRQ_BASE ∨ size = 0 ∨ base + size ≥ 2 ^ 32 ∨
        base + size - 1 > MSI_IRQ_MAX
    · exact Or.inl (fun mm => by simp only [freeOneResource]; unfold free_msi_irq; rw [if_pos h1])
    · exact Or.inr (fun mm => by
        simp only [freeOneResource]; unfold free_msi_irq
        rw [if_neg h1]
        rfl)
  | kvmMemSlot slot =>
    exact Or.inr ⟨PoolId.kvmSlot, (slot, slot), rfl, Or.inr (fun mm => rfl)⟩
  | macAddress i => exact Or.inl ⟨rfl, fun mm => rfl⟩

theorem constraint_align_size (c : Constraint) (a : Nat) : (c.align a).size = c.size := rfl

theorem rangeConstraint_size (range : Option (Nat × Nat)) (align size : Nat) :
    (rangeConstraint range align size).size = size := by
  cases range <;> rfl

theorem fixedConstraint_size (size : Nat) (fixed : Option Nat) :
    (fixedConstraint size fixed).size = size := by
  cases fixed <;> rfl

theorem allocateOneResource_success {l : Layout} {s : Bool} {m m2 : ResourceManager}
    {req : ResourceConstraint} {res : Resource} (hsafe : LegacySafe l m)
    (h : allocateOneResource l s m req = (some res, m2)) :
    (res.freeTarget l = none ∧ m2 = m) ∨
    (∃ P k rf, res.freeTarget l = some (P, rf) ∧ m2 = m.consAlloc P k ∧ k.1 ≤ k.2 ∧
      (∀ a ∈ (m.getPool P).allocated, IntervalTree.overlaps k a = false) ∧
      (rf = k ∨ IntervalTree.overlaps k rf = true)) := by
  cases req with
  | pioAddress range align size =>
    simp only [allocateOneResource] at h
    cases hres : allocate_pio_address m (rangeConstraint range align size) with
    | mk o mm =>
      rw [hres] at h
      cases o with
      | none => simp at h
      | some base =>
        simp only [Prod.mk.injEq, Option.some.injEq] at h
        obtain ⟨hres0, hm2⟩ := h
        right
        unfold allocate_pio_address at hres
        cases ha : m.pio_pool.allocate (rangeConstraint range align size) with
        | none => rw [ha] at hres; simp at hres
        | some kt =>
          obtain ⟨k, t⟩ := kt
          rw [ha] at hres
          simp only [Prod.mk.injEq, Option.some.injEq] at hres
          obtain ⟨hbase, hmm⟩ := hres
          have hrange := IntervalTree.allocate_range ha
          rw [rangeConstraint_size] at hrange
          have hnon := IntervalTree.allocate_nonempty ha
          have hdisj := IntervalTree.allocate_disjoint ha
          have htree := IntervalTree.allocate_result ha
          refine ⟨PoolId.pio, k, (base, base + size - 1), ?_, ?_, hnon, hdisj, Or.inl ?_⟩
          · rw [← hres0]
            rfl
          · rw [← hm2, ← hmm, htree]
            rfl
          · cases k with
            | mk k1 k2 =>
              simp only at hbase hrange
              simp [← hbase, hrange, Constraint.new, Constraint.align]
  | mmioAddress range align size =>
    simp only [allocateOneResource] at h
    cases hres : allocate_mmio_address m (rangeConstraint range align size) with
    | mk o mm =>
      rw [hres] at h
      cases o with
      | none => simp at h
      | some base =>
        simp only [Prod.mk.injEq, Option.some.injEq] at h
        obtain ⟨hres0, hm2⟩ := h
        right
        unfold allocate_mmio_address at hres
        cases ha : m.mmio_pool.allocate (rangeConstraint range align size) with
        | none => rw [ha] at hres; simp at hres
        | some kt =>
          obtain ⟨k, t⟩ := kt
          rw [ha] at hres
          simp only [Prod.mk.injEq, Option.some.injEq] at hres
          obtain ⟨hbase, hmm⟩ := hres
          have hrange := IntervalTree.allocate_range ha
          rw [rangeConstraint_size] at hrange
          have hnon := IntervalTree.allocate_nonempty ha
          have hdisj := IntervalTree.allocate_disjoint ha
          have htree := IntervalTree.allocate_result ha
          refine ⟨PoolId.mmio, k, (base, base + size - 1), ?_, ?_, hnon, hdisj, Or.inl ?_⟩
          · rw [← hres0]
            rfl
          · rw [← hm2, ← hmm, htree]
            rfl
          · cases k with
            | mk k1 k2 =>
              simp only at hbase hrange
              simp [← hbase, hrange, Constraint.new, Constraint.align]
  | memAddress range align size =>
    simp only [allocateOneResource] at h
    cases hres : allocate_mem_address m (rangeConstraint range align size) with
    | mk o mm =>
      rw [hres] at h
      cases o with
      | none => simp at h
      | some base =>
        simp only [Prod.mk.injEq, Option.some.injEq] at h
        obtain ⟨hres0, hm2⟩ := h
        right
        unfold allocate_mem_address at hres
        cases ha : m.mem_pool.allocate (rangeConstraint range align size) with
        | none => rw [ha] at hres; simp at hres
        | some kt =>
          obtain ⟨k, t⟩ := kt
          rw [ha] at hres
          simp only [Prod.mk.injEq, Option.some.injEq] at hres
          obtain ⟨hbase, hmm⟩ := hres
          have hrange := IntervalTree.allocate_range ha
          rw [rangeConstraint_size] at hrange
          have hnon := IntervalTree.allocate_nonempty ha
          have hdisj := IntervalTree.allocate_disjoint ha
          have htree := IntervalTree.allocate_result ha
          refine ⟨PoolId.mem, k, (base, base + size - 1), ?_, ?_, hnon, hdisj, Or.inl ?_⟩
          · rw [← hres0]
            rfl
          · rw [← hm2, ← hmm, htree]
            rfl
          · cases k with
            | mk k1 k2 =>
              simp only at hbase hrange
              simp [← hbase, hrange, Constraint.new, Constraint.align]
  | legacyIrq irq =>
    simp only [allocateOneResource] at h
    cases hres : allocate_legacy_irq l m s irq with
    | mk o mm =>
      rw [hres] at h
      cases o with
      | none => simp at h
      | some v =>
        simp only [Prod.mk.injEq, Option.some.injEq] at h
        obtain ⟨hres0, hm2⟩ := h
        unfold allocate_legacy_irq at hres
        cases s with
        | true =>
          simp only [if_true] at hres
          simp only [Prod.mk.injEq, Option.some.injEq] at hres
          obtain ⟨hv, hmm⟩ := hres
          left
          constructor
          · rw [← hres0]
            simp only [Resource.freeTarget]
            rw [if_pos hv.symm]
          · rw [← hm2, ← hmm]
        | false =>
          simp only [Bool.false_eq_true, if_false] at hres
          cases ha : m.legacy_irq_pool.allocate (fixedConstraint 1 irq) with
          | none => rw [ha] at hres; simp at hres
          | some kt =>
            obtain ⟨k, t⟩ := kt
            rw [ha] at hres
            simp only [Prod.mk.injEq, Option.some.injEq] at hres
            obtain ⟨hbase, hmm⟩ := hres
            right
            have hfeas := (IntervalTree.allocate_eq_some ha).1
            have hrange := IntervalTree.allocate_range ha
            rw [fixedConstraint_size] at hrange
            have hnon := IntervalTree.allocate_nonempty ha
            have hdisj := IntervalTree.allocate_disjoint ha
            have htree := IntervalTree.allocate_result ha
            have hne : k.1 ≠ l.sharedIrq := by
              obtain ⟨cap, hcap, hc1, hc2⟩ := IntervalTree.feasible_in_capacity hfeas
              rw [fixedConstraint_size] at hc2
              intro he
              exact hsafe cap hcap ⟨by omega, by omega⟩
            refine ⟨PoolId.legacy, k, (v, v), ?_, ?_, hnon, hdisj, Or.inl ?_⟩
            · rw [← hres0]
              simp only [Resource.freeTarget]
              rw [if_neg (hbase ▸ hne)]
            · rw [← hm2, ← hmm, htree]
              rfl
            · cases k with
              | mk k1 k2 =>
                simp only at hbase hrange
                simp [← hbase]
                omega
  | pciMsiIrq size =>
    simp only [allocateOneResource] at h
    cases hres : allocate_msi_irq_aligned m size with
    | mk o mm =>
      rw [hres] at h
      cases o with
      | none => simp at h
      | some base =>
        simp only [Prod.mk.injEq, Option.some.injEq] at h
        obtain ⟨hres0, hm2⟩ := h
        right
        unfold allocate_msi_irq_aligned at hres
        cases ha : m.msi_irq_pool.allocate ((Constraint.new size).align size) with
        | none => rw [ha] at hres; simp at hres
        | some kt =>
          obtain ⟨k, t⟩ := kt
          rw [ha] at hres
          simp only [Prod.mk.injEq, Option.some.injEq] at hres
          obtain ⟨hbase, hmm⟩ := hres
          have hrange := IntervalTree.allocate_range ha
          have hnon := IntervalTree.allocate_nonempty ha
          have hdisj := IntervalTree.allocate_disjoint ha
          have htree := IntervalTree.allocate_result ha
          refine ⟨PoolId.msi, k, (base, base + size - 1), ?_, ?_, hnon, hdisj, Or.inl ?_⟩
          · rw [← hres0]
            rfl
          · rw [← hm2, ← hmm, htree]
            rfl
          · cases k with
            | mk k1 k2 =>
              simp only at hbase hrange
              simp [← hbase, hrange, Constraint.new, Constraint.align]
  | pciMsixIrq size =>
    simp only [allocateOneResource] at h
    cases hres : allocate_msi_irq m size with
    | mk o mm =>
      rw [hres] at h
      cases o with
      | none => simp at h
      | some base =>
        simp only [Prod.mk.injEq, Option.some.injEq] at h
        obtain ⟨hres0, hm2⟩ := h
        right
        unfold allocate_msi_irq at hres
        cases ha : m.msi_irq_pool.allocate (Constraint.new size) with
        | none => rw [ha] at hres; simp at hres
        | some kt =>
          obtain ⟨k, t⟩ := kt
          rw [ha] at hres
          simp only [Prod.mk.injEq, Option.some.injEq] at hres
          obtain ⟨hbase, hmm⟩ := hres
          have hrange := IntervalTree.allocate_range ha
          have hnon := IntervalTree.allocate_nonempty ha
          have hdisj := IntervalTree.allocate_disjoint ha
          have htree := IntervalTree.allocate_result ha
          refine ⟨PoolId.msi, k, (base, base + size - 1), ?_, ?_, hnon, hdisj, Or.inl ?_⟩
          · rw [← hres0]
            rfl
          · rw [← hm2, ← hmm, htree]
            rfl
          · cases k with
            | mk k1 k2 =>
              simp only at hbase hrange
              simp [← hbase, hrange, Constraint.new, Constraint.align]
  | genericIrq size =>
    simp only [allocateOneResource] at h
    cases hres : allocate_msi_irq m size with
    | mk o mm =>
      rw [hres] at h
      cases o with
      | none => simp at h
      | some base =>
        simp only [Prod.mk.injEq, Option.some.injEq] at h
        obtain ⟨hres0, hm2⟩ := h
        right
        unfold allocate_msi_irq at hres
        cases ha : m.msi_irq_pool.allocate (Constraint.new size) with
        | none => rw [ha] at hres; simp at hres
        | some kt =>
          obtain ⟨k, t⟩ := kt
          rw [ha] at hres
          simp only [Prod.mk.injEq, Option.some.injEq] at hres
          obtain ⟨hbase, hmm⟩ := hres
          have hrange := IntervalTree.allocate_range ha
          have hnon := IntervalTree.allocate_nonempty ha
          have hdisj := IntervalTree.allocate_disjoint ha
          have htree := IntervalTree.allocate_result ha
          refine ⟨PoolId.msi, k, (base, base + size - 1), ?_, ?_, hnon, hdisj, Or.inl ?_⟩
          · rw [← hres0]
            rfl
          · rw [← hm2, ← hmm, htree]
            rfl
          · cases k with
            | mk k1 k2 =>
              simp only at hbase hrange
              simp [← hbase, hrange, Constraint.new, Constraint.align]
  | kvmMemSlot slot size =>
    simp only [allocateOneResource] at h
    cases hres : allocate_kvm_mem_slot m size slot with
    | mk o mm =>
      rw [hres] at h
      cases o with
      | none => simp at h
      | some v =>
        simp only [Prod.mk.injEq, Option.some.injEq] at h
        obtain ⟨hres0, hm2⟩ := h
        right
        unfold allocate_kvm_mem_slot at hres
        cases ha : m.kvm_mem_slot_pool.allocate (fixedConstraint size slot) with
        | none => rw [ha] at hres; simp at hres
        | some kt =>
          obtain ⟨k, t⟩ := kt
          rw [ha] at hres
          simp only [Prod.mk.injEq, Option.some.injEq] at hres
          obtain ⟨hbase, hmm⟩ := hres
          have hrange := IntervalTree.allocate_range ha
          rw [fixedConstraint_size] at hrange
          have hnon := IntervalTree.allocate_nonempty ha
          have hdisj := IntervalTree.allocate_disjoint ha
          have htree := IntervalTree.allocate_result ha
          refine ⟨PoolId.kvmSlot, k, (v, v), ?_, ?_, hnon, hdisj, Or.inr ?_⟩
          · rw [← hres0]
            rfl
          · rw [← hm2, ← hmm, htree]
            rfl
          · unfold IntervalTree.overlaps
            cases k with
            | mk k1 k2 =>
              simp only at hbase hnon ⊢
              simp only [decide_eq_true_eq]
              omega

theorem freeOne_consAlloc (l : Layout) (x : Resource) (m : ResourceManager)
    (P : PoolId) (k : Interval)
    (h : ∀ P' rf, x.freeTarget l = some (P', rf) → P' = P → rf ≠ k) :
    freeOneResource l (m.consAlloc P k) x =
      (freeOneResource l m x).map (fun mm => mm.consAlloc P k) := by
  rcases freeOneResource_spec l x with ⟨htgt, hid⟩ | ⟨P', rf, htgt, hnone | hpool⟩
  · rw [hid, hid]
    rfl
  · rw [hnone, hnone]
    rfl
  · rw [hpool, hpool]
    by_cases hP : P' = P
    · subst hP
      have hne : rf ≠ k := h P' rf htgt rfl
      rw [getPool_consAlloc_same]
      rw [IntervalTree.free_cons_ne (m.getPool P') (Ne.symm hne)]
      cases hf : (m.getPool P').free rf with
      | none => rfl
      | some t2 =>
        simp only [Option.map_some']
        simp only [consAlloc, getPool_setPool_same, setPool_setPool]
    · rw [getPool_consAlloc_ne m P P' k hP]
      cases hf : (m.getPool P').free rf with
      | none => rfl
      | some t2 =>
        simp only [Option.map_some']
        rw [setPool_consAlloc_ne m P P' k t2 hP]

theorem freeOne_target_none {l : Layout} {x : Resource}
    (htgt : x.freeTarget l = none) (mm : ResourceManager) :
    freeOneResource l mm x = some mm := by
  rcases freeOneResource_spec l x with ⟨_, hid⟩ | ⟨P, rf, htgt2, _⟩
  · exact hid mm
  · rw [htgt] at htgt2
    exact absurd htgt2 (by simp)

theorem free_device_resources_consAlloc (l : Layout) (P : PoolId) (k : Interval) :
    ∀ (acc : List Resource) (m : ResourceManager),
    (∀ x ∈ acc, ∀ P' rf, Resource.freeTarget l x = some (P', rf) → P' = P → rf ≠ k) →
    free_device_resources l (m.consAlloc P k) acc =
      (free_device_resources l m acc).map (fun mm => mm.consAlloc P k) := by
  intro acc
  induction acc with
  | nil => intro m _; rfl
  | cons x rest ih =>
    intro m hcond
    unfold free_device_resources
    rw [freeOne_consAlloc l x m P k
      (fun P' rf htgt => hcond x (List.mem_cons_self x rest) P' rf htgt)]
    cases hf : freeOneResource l m x with
    | none => rfl
    | some mm2 =>
      simp only [Option.map_some', Option.some_bind]
      exact ih mm2 (fun y hy => hcond y (List.mem_cons_of_mem x hy))

theorem free_device_resources_append (l : Layout) :
    ∀ (a b : List Resource) (m : ResourceManager),
    free_device_resources l m (a ++ b) =
      (free_device_resources l m a).bind (fun mm => free_device_resources l mm b) := by
  intro a
  induction a with
  | nil => intro b m; rfl
  | cons x rest ih =>
    intro b m
    show (freeOneResource l m x).bind (fun m2 => free_device_resources l m2 (rest ++ b)) =
      ((freeOneResource l m x).bind (fun m2 => free_device_resources l m2 rest)).bind
        (fun mm => free_device_resources l mm b)
    cases hf : freeOneResource l m x with
    | none => rfl
    | some mm =>
      simp only [Option.some_bind]
      exact ih b mm

theorem adr_loop_rollback (l : Layout) (shared : Bool) (e : ResourceError) :
    ∀ (requests : List ResourceConstraint) (acc : List Resource)
      (m m0 m2 : ResourceManager),
    LegacySafe l m →
    (free_device_resources l m acc = none ∨ free_device_resources l m acc = some m0) →
    (∀ x ∈ acc, ∀ P rf, Resource.freeTarget l x = some (P, rf) →
      ∃ a ∈ (m.getPool P).allocated, IntervalTree.overlaps rf a = true) →
    (∀ P a, a ∈ (m0.getPool P).allocated → a ∈ (m.getPool P).allocated) →
    allocate_device_resources_loop l shared requests acc m = some (Except.error e, m2) →
    e = ResourceError.noAvailResource ∧ m2 = m0 := by
  intro requests
  induction requests with
  | nil =>
    intro acc m m0 m2 _ _ _ _ h
    simp [allocate_device_resources_loop] at h
  | cons req rest ih =>
    intro acc m m0 m2 hsafe hfree htrack hsub h
    simp only [allocate_device_resources_loop] at h
    cases hone : allocateOneResource l shared m req with
    | mk o mnext =>
      rw [hone] at h
      cases o with
      | none =>
        have hm : mnext = m := allocateOneResource_fail hone
        subst hm
        cases hfa : free_device_resources l mnext acc with
        | none => simp [hfa] at h
        | some m3 =>
          simp only [hfa, Option.map_some', Option.some.injEq, Prod.mk.injEq] at h
          obtain ⟨herr, hm2⟩ := h
          rcases hfree with hl | hr
          · rw [hfa] at hl
            exact absurd hl (by simp)
          · rw [hfa] at hr
            injection hr with hr
            refine ⟨?_, by rw [← hm2, hr]⟩
            have := herr
            injection this with hE
            exact hE.symm
      | some res =>
        rcases allocateOneResource_success hsafe hone with
          ⟨htgt, hm⟩ | ⟨P, k, rf, htgt, hm, hnon, hdisj, hrfk⟩
        · subst hm
          refine ih (acc ++ [res]) mnext m0 m2 hsafe ?_ ?_ hsub h
          · rw [free_device_resources_append]
            rcases hfree with hl | hr
            · rw [hl]
              exact Or.inl rfl
            · rw [hr]
              simp only [Option.some_bind]
              right
              unfold free_device_resources
              rw [freeOne_target_none htgt m0]
              rfl
          · intro x hx P' rf' htgt'
            rcases List.mem_append.mp hx with hx | hx
            · exact htrack x hx P' rf' htgt'
            · rw [List.mem_singleton.mp hx] at htgt'
              rw [htgt] at htgt'
              exact absurd htgt' (by simp)
        · subst hm
          refine ih (acc ++ [res]) (m.consAlloc P k) m0 m2 (legacySafe_consAlloc hsafe)
            ?_ ?_ (fun P' a ha => mem_allocated_consAlloc m P P' k a (hsub P' a ha)) h
          · have hcond : ∀ x ∈ acc, ∀ P' rf',
                Resource.freeTarget l x = some (P', rf') → P' = P → rf' ≠ k := by
              intro x hx P' rf' htgt' hPP hrk
              subst hPP
              subst hrk
              obtain ⟨a, ha, hov⟩ := htrack x hx P' rf' htgt'
              have := hdisj a ha
              rw [this] at hov
              exact absurd hov (by simp)
            rw [free_device_resources_append,
              free_device_resources_consAlloc l P k acc m hcond]
            rcases hfree with hl | hr
            · rw [hl]
              exact Or.inl rfl
            · rw [hr]
              simp only [Option.map_some', Option.some_bind]
              unfold free_device_resources
              rcases freeOneResource_spec l res with ⟨htgt2, _⟩ | ⟨P2, rf2, htgt2, hcase⟩
              · rw [htgt] at htgt2
                exact absurd htgt2 (by simp)
              · rw [htgt] at htgt2
                injection htgt2 with htgt2
                rw [Prod.mk.injEq] at htgt2
                obtain ⟨hP2, hrf2⟩ := htgt2
                subst hP2
                subst hrf2
                rcases hcase with hnone | hpool
                · rw [hnone]
                  exact Or.inl rfl
                · rw [hpool]
                  rw [getPool_consAlloc_same]
                  by_cases hrk : rf = k
                  · subst hrk
                    rw [IntervalTree.free_cons_self (m0.getPool P) rf]
                    simp only [Option.map_some', Option.some_bind]
                    right
                    unfold free_device_resources
                    simp only [consAlloc, setPool_setPool, setPool_getPool]
                  · have hov : IntervalTree.overlaps k rf = true := by
                      rcases hrfk with he | hov
                      · exact absurd he hrk
                      · exact hov
                    rw [IntervalTree.free_cons_ne (m0.getPool P) (fun he => hrk he.symm)]
                    have hnotmem : rf ∉ (m0.getPool P).allocated := by
                      intro hmem
                      have := hdisj rf (hsub P rf hmem)
                      rw [this] at hov
                      exact absurd hov (by simp)
                    unfold IntervalTree.free
                    rw [IntervalTree.removeFirst_eq_none hnotmem]
                    exact Or.inl rfl
          · intro x hx P' rf' htgt'
            rcases List.mem_append.mp hx with hx | hx
            · obtain ⟨a, ha, hov⟩ := htrack x hx P' rf' htgt'
              exact ⟨a, mem_allocated_consAlloc m P P' k a ha, hov⟩
            · rw [List.mem_singleton.mp hx] at htgt'
              rw [htgt] at htgt'
              injection htgt' with htgt'
              rw [Prod.mk.injEq] at htgt'
              obtain ⟨hP', hrf'⟩ := htgt'
              subst hP'
              subst hrf'
              refine ⟨k, ?_, ?_⟩
              · rw [getPool_consAlloc_same]
                exact List.mem_cons_self k _
              · rcases hrfk with he | hov
                · subst he
                  exact IntervalTree.overlaps_self hnon
                · rw [IntervalTree.overlaps_comm]
                  exact hov

end ResourceManager

/-- Claim C1 (amended): whenever `allocate_device_resources` returns at all
(that is, none of the rollback's free calls panics) and fails on some
request, the returned error is the recoverable `NoAvailResource` and every
pool of the resource manager is exactly as it was before the call — all
resources granted for earlier requests of the same call have been freed, so
no caller observes a partial device resource set.  The manager must keep the
shared legacy irq out of the legacy pool (`LegacySafe`), which `new`
guarantees by construction. -/
theorem allocate_device_resources_rollback (l : Layout) (m m2 : ResourceManager)
    (requests : List ResourceConstraint) (shared : Bool) (e : ResourceError)
    (hsafe : LegacySafe l m)
    (h : ResourceManager.allocate_device_resources l m requests shared =
      some (Except.error e, m2)) :
    e = ResourceError.noAvailResource ∧ m2 = m :=
  ResourceManager.adr_loop_rollback l shared e requests [] m m m2 hsafe
    (Or.inr rfl) (fun x hx => absurd hx (List.not_mem_nil x)) (fun _ _ ha => ha) h

instance {ε α : Type} [DecidableEq ε] [DecidableEq α] :
    DecidableEq (Except ε α) := fun x y =>
  match x, y with
  | Except.ok a, Except.ok b =>
    if h : a = b then Decidable.isTrue (by rw [h])
    else Decidable.isFalse (fun he => h (Except.ok.inj he))
  | Except.ok _, Except.error _ => Decidable.isFalse (fun he => Except.noConfusion he)
  | Except.error _, Except.ok _ => Decidable.isFalse (fun he => Except.noConfusion he)
  | Except.error e, Except.error e2 =>
    if h : e = e2 then Decidable.isTrue (by rw [h])
    else Decidable.isFalse (fun he => h (Except.error.inj he))

instance (l : Layout) (m : ResourceManager) : Decidable (LegacySafe l m) := by
  unfold LegacySafe
  infer_instance

/-- Concrete request list whose second request fails, with a benign rollback. -/
def c1WitnessRequests : List ResourceConstraint :=
  [ResourceConstraint.pioAddress none 1 0x1000, ResourceConstraint.legacyIrq (some 5)]

/-- Witness for the amended C1 theorem: a failing request list whose rollback
returns the manager to exactly its original state. -/
theorem allocate_device_resources_rollback_witness :
    LegacySafe witnessLayout kvmWitnessRM ∧
    ResourceManager.allocate_device_resources witnessLayout kvmWitnessRM
      c1WitnessRequests false =
      some (Except.error ResourceError.noAvailResource, kvmWitnessRM) ∧
    (ResourceError.noAvailResource = ResourceError.noAvailResource ∧
      kvmWitnessRM = kvmWitnessRM) :=
  ⟨by decide, by decide,
    allocate_device_resources_rollback witnessLayout kvmWitnessRM kvmWitnessRM
      c1WitnessRequests false ResourceError.noAvailResource (by decide) (by decide)⟩

/-- Concrete request list that makes the rollback itself panic: the first
request is granted the PIO range `[0xF000, 0xFFFF]` reaching the top of the
16-bit space, the second request fails, and the rollback's
`free_pio_address(0xF000, 0x1000)` trips the `u16` `checked_add` guard. -/
def c1PanicRequests : List ResourceConstraint :=
  [ResourceConstraint.pioAddress (some (0xF000, 0xFFFF)) 1 0x1000,
    ResourceConstraint.legacyIrq (some 5)]

/-- Claim C1 counterexample: on `c1PanicRequests` the failing call does not
return `NoAvailResource` with restored pools — it panics inside the rollback
(modelled `none`), so the claim as stated is false. -/
theorem allocate_device_resources_counterexample :
    ResourceManager.allocate_device_resources witnessLayout kvmWitnessRM
      c1PanicRequests false = none ∧
    ResourceManager.allocate_device_resources witnessLayout kvmWitnessRM
      c1PanicRequests false ≠
      some (Except.error ResourceError.noAvailResource, kvmWitnessRM) := by
  decide

/-- Mirror of `NumaRegionInfo` (the fields consumed by the region loop of
`create_address_space`); `size` is in MiB. -/
structure NumaRegionInfo where
  size : Nat
  hostNumaNodeId : Option Nat
  guestNumaNodeId : Option Nat
  vcpuIds : List Nat
deriving Repr, DecidableEq

/-- One iteration of the region loop of `create_address_space`: from the
running start address and the byte size of one NUMA region descriptor,
produce the guest-memory regions `(base, length)` and the next start
address.  A region that does not intersect the MMIO hole is emitted whole;
otherwise it is split into the part below `MMIO_LOW_START` and the part
relocated to `MMIO_LOW_END + 1`.  (The `u64` subtraction
`MMIO_LOW_START - start_addr` is exercised by the source only with
`start_addr ≤ MMIO_LOW_START`; `Nat` subtraction agrees there.) -/
def regionsForInfo (l : Layout) (start_addr size : Nat) : List (Nat × Nat) × Nat :=
  if start_addr > l.mmioLowEnd ∨ start_addr + size ≤ l.mmioLowStart then
    ([(start_addr, size)], start_addr + size)
  else
    ([(start_addr, l.mmioLowStart - start_addr),
        (l.mmioLowEnd + 1, size - (l.mmioLowStart - start_addr))],
      l.mmioLowEnd + 1 + (size - (l.mmioLowStart - start_addr)))

/-- The region loop of `create_address_space` over a list of NUMA region
descriptors, starting from a given start address (`size << 20` converts MiB
to bytes). -/
def createAddressSpaceRegionsFrom (l : Layout) :
    List NumaRegionInfo → Nat → List (Nat × Nat)
  | [], _ => []
  | info :: rest, start_addr =>
    (regionsForInfo l start_addr (info.size <<< 20)).1 ++
      createAddressSpaceRegionsFrom l rest (regionsForInfo l start_addr (info.size <<< 20)).2

/-- The guest-memory regions produced by `create_address_space`, which walks
the descriptors sequentially starting at `GUEST_MEM_START`. -/
def createAddressSpaceRegions (l : Layout) (infos : List NumaRegionInfo) :
    List (Nat × Nat) :=
  createAddressSpaceRegionsFrom l infos l.guestMemStart

/-- Layout used for the C4 evaluation: the spec's end-to-end scenario with
the low-MMIO hole at 1 GiB – 1.5 GiB. -/
def c4Layout : Layout :=
  ⟨0, 0x80000000 - 1, 2 ^ 40 - 1, 0x40000000, 0x5FFFFFFF, 5, 15⟩

/-- Claim C4 counterexample: a 2 GiB descriptor starting at 0 crosses the
1 GiB – 1.5 GiB hole and is split into two regions of 1 GiB each; the union
of their lengths equals the original region's length (2 GiB), not the
original length minus the hole (1.5 GiB), so the claim as stated is false. -/
theorem mmio_hole_split_counterexample :
    createAddressSpaceRegions c4Layout
        [NumaRegionInfo.mk 2048 none (some 0) []] =
      [(0, 0x40000000), (0x60000000, 0x40000000)] ∧
    (0x40000000 + 0x40000000 : Nat) ≠
      (2048 <<< 20) - (c4Layout.mmioLowEnd + 1 - c4Layout.mmioLowStart) := by
  decide

/-- Claim C4 (amended): for every region whose computed guest address span
crosses the reserved low-MMIO hole, the region loop of
`create_address_space` produces exactly two guest-memory regions from it,
neither region overlaps the hole, and the union (sum) of the two regions'
lengths equals the original region's length — the hole is skipped by
relocating the upper part past it, not deducted from the memory size. -/
theorem mmio_hole_split (l : Layout) (start size : Nat)
    (h1 : start ≤ l.mmioLowStart) (h2 : l.mmioLowStart < start + size)
    (h3 : l.mmioLowStart ≤ l.mmioLowEnd) :
    (regionsForInfo l start size).1 =
      [(start, l.mmioLowStart - start),
        (l.mmioLowEnd + 1, size - (l.mmioLowStart - start))] ∧
    (regionsForInfo l start size).1.length = 2 ∧
    (l.mmioLowStart - start) + (size - (l.mmioLowStart - start)) = size ∧
    (∀ r ∈ (regionsForInfo l start size).1, ∀ addr, r.1 ≤ addr → addr < r.1 + r.2 →
      ¬ (l.mmioLowStart ≤ addr ∧ addr ≤ l.mmioLowEnd)) := by
  have hcond : ¬ (start > l.mmioLowEnd ∨ start + size ≤ l.mmioLowStart) := by omega
  unfold regionsForInfo
  rw [if_neg hcond]
  refine ⟨rfl, rfl, by omega, ?_⟩
  intro r hr addr ha1 ha2
  simp only [List.mem_cons, List.mem_singleton, List.not_mem_nil, or_false] at hr
  rcases hr with hr | hr <;> subst hr <;> simp only at ha1 ha2 <;> omega

/-- Witness for the amended C4 theorem at the spec's end-to-end scenario. -/
theorem mmio_hole_split_witness :
    ((0 : Nat) ≤ c4Layout.mmioLowStart ∧
      c4Layout.mmioLowStart < 0 + 2 ^ 31 ∧
      c4Layout.mmioLowStart ≤ c4Layout.mmioLowEnd) ∧
    ((regionsForInfo c4Layout 0 (2 ^ 31)).1 =
      [(0, c4Layout.mmioLowStart - 0),
        (c4Layout.mmioLowEnd + 1, 2 ^ 31 - (c4Layout.mmioLowStart - 0))] ∧
    (regionsForInfo c4Layout 0 (2 ^ 31)).1.length = 2 ∧
    (c4Layout.mmioLowStart - 0) + (2 ^ 31 - (c4Layout.mmioLowStart - 0)) = 2 ^ 31 ∧
    (∀ r ∈ (regionsForInfo c4Layout 0 (2 ^ 31)).1, ∀ addr, r.1 ≤ addr →
      addr < r.1 + r.2 →
      ¬ (c4Layout.mmioLowStart ≤ addr ∧ addr ≤ c4Layout.mmioLowEnd))) :=
  ⟨⟨by decide, by decide, by decide⟩,
    mmio_hole_split c4Layout 0 (2 ^ 31) (by decide) (by decide) (by decide)⟩

/-- Mirror of `VcpuAction`: the tri-state tag of the in-flight hot-plug
operation. -/
inductive VcpuAction where
  | noAction
  | hotplug
  | hotunplug
deriving Repr, DecidableEq

/-- Mirror of `RecvTimeoutError` of the standard mpsc channel. -/
inductive RecvTimeoutErr where
  | timeout
  | disconnected
deriving Repr, DecidableEq

/-- Mirror of `VcpuResizeError`. -/
inductive VcpuResizeError where
  | vcpuIsHotplugging
  | updateNotAllowedPostBoot
  | expectedVcpuExceedMax
  | vcpu0CanNotBeRemoved
  | lackRemovableVcpus (removable toRemove present : Nat)
  | upcall
deriving Repr, DecidableEq

/-- Mirror of `VcpuManagerError` (payloads of external error types are
dropped; the `RecvTimeoutError` payload of `VcpuResponseTimeout` is kept,
being channel-level data). -/
inductive VcpuManagerError where
  | vcpuManagerNotInitialized
  | expectedVcpuExceedMax
  | vcpuNotFound (i : Nat)
  | vcpuGettid
  | vcpuPause
  | vcpuResume
  | vcpuSave
  | unexpectedVcpuResponse
  | vcpuNotCreate
  | maxVcpuLimitation
  | vcpuRevalidateCache
  | vcpuResponseChannel
  | vcpuResponseTimeout (e : RecvTimeoutErr)
  | seccompFilters
  | vcpuEvent
  | vcpu
  | vcpuResize (e : VcpuResizeError)
  | kvm
deriving Repr, DecidableEq

/-- Mirror of `VcpuInfo`: live object, thread handle and kernel descriptor
are abstracted to presence flags, the OS thread id to a number. -/
structure VcpuInfo where
  vcpu : Bool
  handle : Bool
  tid : Nat
  vcpu_fd : Bool
deriving Repr, DecidableEq

/-- Mirror of the `VcpuManager` fields that drive the resize / hot-plug
protocol; the pending sync sender is abstracted to an optional token and the
upcall channel to a presence flag. -/
structure VcpuManager where
  vcpu_infos : List VcpuInfo
  max_vcpu_count : Nat
  vcpus_in_action : VcpuAction × List Nat
  action_sycn_tx : Option Nat
  upcall_channel : Bool
deriving Repr, DecidableEq

namespace VcpuManager

/-- Mirror of `present_vcpus`: the indices whose slot holds a thread handle,
in ascending order. -/
def present_vcpus (m : VcpuManager) : List Nat :=
  (List.range m.vcpu_infos.length).filter
    (fun i => (m.vcpu_infos.getD i ⟨false, false, 0, false⟩).handle)

/-- Mirror of `present_vcpus_count`: fold counting the slots with a handle. -/
def present_vcpus_count (m : VcpuManager) : Nat :=
  m.vcpu_infos.foldl (fun sum info => sum + (if info.handle then 1 else 0)) 0

/-- Mirror of `calculate_removable_vcpus`: the current policy returns every
present vCPU. -/
def calculate_removable_vcpus (m : VcpuManager) : List Nat :=
  present_vcpus m

/-- Mirror of `set_vcpus_action`. -/
def set_vcpus_action (m : VcpuManager) (a : VcpuAction) (vcpus : List Nat) :
    VcpuManager :=
  { m with vcpus_in_action := (a, vcpus) }

/-- Mirror of `get_vcpus_action`. -/
def get_vcpus_action (m : VcpuManager) : VcpuAction :=
  m.vcpus_in_action.1

/-- Mirror of `sync_action_finish`: the pending sync sender is taken
(`Option::take`) and the completion flag sent on it. -/
def sync_action_finish (m : VcpuManager) : VcpuManager :=
  { m with action_sycn_tx := none }

/-- Mirror of `do_del_vcpu`; the outcome of `send_upcall_action` is supplied
by the `upcallOk` flag (the upcall client is external). -/
def do_del_vcpu (m : VcpuManager) (vcpu_count : Nat) (upcallOk : Bool) :
    VcpuManager × Except VcpuManagerError Unit :=
  if vcpu_count = 0 then
    (m, Except.error (VcpuManagerError.vcpuResize VcpuResizeError.vcpu0CanNotBeRemoved))
  else
    let cpu_ids := calculate_removable_vcpus m
    let cpu_num_to_be_del := present_vcpus_count m - vcpu_count
    if cpu_num_to_be_del ≥ cpu_ids.length then
      (m, Except.error (VcpuManagerError.vcpuResize
        (VcpuResizeError.lackRemovableVcpus cpu_ids.length cpu_num_to_be_del
          (present_vcpus_count m))))
    else
      if upcallOk then
        (set_vcpus_action m VcpuAction.hotunplug (cpu_ids.reverse.take cpu_num_to_be_del),
          Except.ok ())
      else
        (m, Except.error (VcpuManagerError.vcpuResize VcpuResizeError.upcall))

/-- Mirror of `resize_vcpu`: rejects a second resize while one is in flight,
then stores the sync sender and dispatches on the comparison of the desired
and present vCPU counts.  The hot-add path (`do_add_vcpu`, which spawns
threads and talks to the kernel) is supplied as a function argument. -/
def resize_vcpu (m : VcpuManager) (vcpu_count : Nat) (sync_tx : Option Nat)
    (upcallOk : Bool)
    (doAdd : VcpuManager → Nat → VcpuManager × Except VcpuManagerError Unit) :
    VcpuManager × Except VcpuManagerError Unit :=
  if get_vcpus_action m ≠ VcpuAction.noAction then
    (m, Except.error (VcpuManagerError.vcpuResize VcpuResizeError.vcpuIsHotplugging))
  else
    let m1 := { m with action_sycn_tx := sync_tx }
    if m1.upcall_channel then
      if vcpu_count = present_vcpus_count m1 then
        (sync_action_finish m1, Except.ok ())
      else if vcpu_count > present_vcpus_count m1 then
        doAdd m1 vcpu_count
      else
        do_del_vcpu m1 vcpu_count upcallOk
    else
      (m1, Except.error (VcpuManagerError.vcpuResize
        VcpuResizeError.updateNotAllowedPostBoot))

end VcpuManager

/-- Modelled from the spec: the `VcpuResponse` enum of the vcpu
implementation; the thread-id handshake expects `Tid`, and any other
well-formed response is unexpected for it. -/
inductive VcpuResponse where
  | tid (idx id : Nat)
  | other
deriving Repr, DecidableEq

/-- The per-vCPU receive handling of `get_vcpus_tid`: the `match` over
`recv_timeout` mapping `Ok(Tid(_, id))` to the thread id and both `Err(e)`
and any other response to `VcpuGettid`. -/
def gettidRecvOutcome : Except RecvTimeoutErr VcpuResponse →
    Except VcpuManagerError Nat
  | Except.ok (VcpuResponse.tid _ id) => Except.ok id
  | Except.error _ => Except.error VcpuManagerError.vcpuGettid
  | Except.ok VcpuResponse.other => Except.error VcpuManagerError.vcpuGettid

theorem present_vcpus_pairwise (m : VcpuManager) :
    (VcpuManager.present_vcpus m).Pairwise (· < ·) :=
  List.Pairwise.sublist (List.filter_sublist _) (List.pairwise_lt_range _)

theorem zero_head_of_mem {l : List Nat} (hp : l.Pairwise (· < ·)) (h0 : 0 ∈ l) :
    ∃ t, l = 0 :: t := by
  cases l with
  | nil => simp at h0
  | cons a t =>
    rcases List.mem_cons.mp h0 with ha | ht
    · exact ⟨t, by rw [← ha]⟩
    · have := (List.pairwise_cons.mp hp).1 0 ht
      omega

theorem zero_not_in_reverse_take {l : List Nat} (hp : l.Pairwise (· < ·)) {k : Nat}
    (hk : k < l.length) : 0 ∉ l.reverse.take k := by
  intro hmem
  have h0l : 0 ∈ l := List.mem_reverse.mp (List.take_subset _ _ hmem)
  obtain ⟨t, ht⟩ := zero_head_of_mem hp h0l
  subst ht
  have hpos : ∀ x ∈ t, 0 < x := (List.pairwise_cons.mp hp).1
  have hk2 : k ≤ t.length := by
    simp only [List.length_cons] at hk
    omega
  rw [List.reverse_cons,
    List.take_append_of_le_length (by simpa using hk2)] at hmem
  have h0t : 0 ∈ t := List.mem_reverse.mp (List.take_subset _ _ hmem)
  exact absurd (hpos 0 h0t) (by omega)

/-- Concrete manager with vCPUs 0 and 1 present and no action in flight. -/
def c3Manager : VcpuManager :=
  ⟨[⟨true, true, 11, true⟩, ⟨true, true, 12, true⟩], 2,
    (VcpuAction.noAction, []), none, true⟩

/-- Claim C3 counterexample: with vCPUs 0 and 1 present,
`calculate_removable_vcpus` returns `[0, 1]` — vCPU index 0 is in the
removable list, so the calculation does not select "every present vCPU
except index 0". -/
theorem removable_vcpus_include_zero_counterexample :
    VcpuManager.calculate_removable_vcpus c3Manager = [0, 1] ∧
    0 ∈ VcpuManager.calculate_removable_vcpus c3Manager := by
  decide

/-- Claim C3 (amended): `calculate_removable_vcpus` returns every present
vCPU, index 0 included; nevertheless, whenever `do_del_vcpu` succeeds (for
any manager state and any requested count not exceeding the present count,
as its caller guarantees), the vCPUs it finally selects for hot-unplug — the
highest-indexed `present - requested` present vCPUs, which it records in
`vcpus_in_action` and sends to the guest — never include vCPU index 0. -/
theorem do_del_vcpu_never_selects_zero (m : VcpuManager) (vcpu_count : Nat)
    (upcallOk : Bool) (m2 : VcpuManager)
    (_hle : vcpu_count ≤ VcpuManager.present_vcpus_count m)
    (h : VcpuManager.do_del_vcpu m vcpu_count upcallOk = (m2, Except.ok ())) :
    m2.vcpus_in_action.1 = VcpuAction.hotunplug ∧
    m2.vcpus_in_action.2 =
      (VcpuManager.calculate_removable_vcpus m).reverse.take
        (VcpuManager.present_vcpus_count m - vcpu_count) ∧
    0 ∉ m2.vcpus_in_action.2 := by
  unfold VcpuManager.do_del_vcpu at h
  by_cases hz : vcpu_count = 0
  · rw [if_pos hz] at h
    simp at h
  · rw [if_neg hz] at h
    by_cases hguard : VcpuManager.present_vcpus_count m - vcpu_count ≥
        (VcpuManager.calculate_removable_vcpus m).length
    · rw [if_pos hguard] at h
      simp at h
    · rw [if_neg hguard] at h
      cases upcallOk with
      | false => simp at h
      | true =>
        simp only [if_true] at h
        have hm2 : m2 = VcpuManager.set_vcpus_action m VcpuAction.hotunplug
            ((VcpuManager.calculate_removable_vcpus m).reverse.take
              (VcpuManager.present_vcpus_count m - vcpu_count)) := by
          have := congrArg Prod.fst h
          exact this.symm
        subst hm2
        refine ⟨rfl, rfl, ?_⟩
        exact zero_not_in_reverse_take (present_vcpus_pairwise m)
          (Nat.lt_of_not_ge hguard)

/-- Witness for the amended C3 theorem: deleting down to one vCPU on the
two-vCPU manager selects exactly vCPU 1. -/
theorem do_del_vcpu_never_selects_zero_witness :
    ((1 : Nat) ≤ VcpuManager.present_vcpus_count c3Manager ∧
      VcpuManager.do_del_vcpu c3Manager 1 true =
        (VcpuManager.set_vcpus_action c3Manager VcpuAction.hotunplug [1],
          Except.ok ())) ∧
    ((VcpuManager.set_vcpus_action c3Manager VcpuAction.hotunplug
        [1]).vcpus_in_action.1 = VcpuAction.hotunplug ∧
      (VcpuManager.set_vcpus_action c3Manager VcpuAction.hotunplug
        [1]).vcpus_in_action.2 =
        (VcpuManager.calculate_removable_vcpus c3Manager).reverse.take
          (VcpuManager.present_vcpus_count c3Manager - 1) ∧
      0 ∉ (VcpuManager.set_vcpus_action c3Manager VcpuAction.hotunplug
        [1]).vcpus_in_action.2) :=
  ⟨⟨by decide, by decide⟩,
    do_del_vcpu_never_selects_zero c3Manager 1 true
      (VcpuManager.set_vcpus_action c3Manager VcpuAction.hotunplug [1])
      (by decide) (by decide)⟩

/-- Claim C6: if the in-flight action tag is `Hotplug` or `Hotunplug`,
`resize_vcpu` returns immediately with the distinct "vcpu is in hotplug
process" error for every requested vCPU count, sync sender, upcall outcome
and hot-add path, and the manager — its action tag, tracked vCPU index list
and pending sync sender included — is unchanged. -/
theorem resize_rejected_while_hotplugging (m : VcpuManager) (vcpu_count : Nat)
    (sync_tx : Option Nat) (upcallOk : Bool)
    (doAdd : VcpuManager → Nat → VcpuManager × Except VcpuManagerError Unit)
    (h : m.vcpus_in_action.1 = VcpuAction.hotplug ∨
      m.vcpus_in_action.1 = VcpuAction.hotunplug) :
    VcpuManager.resize_vcpu m vcpu_count sync_tx upcallOk doAdd =
      (m, Except.error (VcpuManagerError.vcpuResize
        VcpuResizeError.vcpuIsHotplugging)) ∧
    (VcpuManager.resize_vcpu m vcpu_count sync_tx upcallOk doAdd).1.vcpus_in_action =
      m.vcpus_in_action ∧
    (VcpuManager.resize_vcpu m vcpu_count sync_tx upcallOk doAdd).1.action_sycn_tx =
      m.action_sycn_tx := by
  have hne : VcpuManager.get_vcpus_action m ≠ VcpuAction.noAction := by
    unfold VcpuManager.get_vcpus_action
    rcases h with h | h <;> rw [h] <;> simp
  unfold VcpuManager.resize_vcpu
  rw [if_pos hne]
  exact ⟨rfl, rfl, rfl⟩

/-- Concrete manager with a hot-plug of vCPU 1 in flight and a pending
sync sender. -/
def c6Manager : VcpuManager :=
  ⟨[⟨true, true, 11, true⟩], 4, (VcpuAction.hotplug, [1]), some 7, true⟩

/-- Witness for C6 on the concrete in-flight manager. -/
theorem resize_rejected_while_hotplugging_witness :
    (c6Manager.vcpus_in_action.1 = VcpuAction.hotplug ∨
      c6Manager.vcpus_in_action.1 = VcpuAction.hotunplug) ∧
    (VcpuManager.resize_vcpu c6Manager 3 (some 9) true (fun mm _ => (mm, Except.ok ())) =
      (c6Manager, Except.error (VcpuManagerError.vcpuResize
        VcpuResizeError.vcpuIsHotplugging)) ∧
    (VcpuManager.resize_vcpu c6Manager 3 (some 9) true
      (fun mm _ => (mm, Except.ok ()))).1.vcpus_in_action = c6Manager.vcpus_in_action ∧
    (VcpuManager.resize_vcpu c6Manager 3 (some 9) true
      (fun mm _ => (mm, Except.ok ()))).1.action_sycn_tx = c6Manager.action_sycn_tx) :=
  ⟨Or.inl (by decide),
    resize_rejected_while_hotplugging c6Manager 3 (some 9) true
      (fun mm _ => (mm, Except.ok ())) (Or.inl (by decide))⟩

/-- Claim C8 counterexample: in the thread-id handshake of `get_vcpus_tid`,
a receive timeout and a well-formed but unexpected response yield the very
same error value `VcpuGettid` — they are not distinguishable. -/
theorem gettid_timeout_counterexample :
    gettidRecvOutcome (Except.error RecvTimeoutErr.timeout) =
      Except.error VcpuManagerError.vcpuGettid ∧
    gettidRecvOutcome (Except.ok VcpuResponse.other) =
      Except.error VcpuManagerError.vcpuGettid ∧
    gettidRecvOutcome (Except.error RecvTimeoutErr.timeout) =
      gettidRecvOutcome (Except.ok VcpuResponse.other) := by
  decide

/-- Claim C8 (amended): in `get_vcpus_tid` every channel error — timeout or
disconnection — and every well-formed but unexpected response collapse to
the same `VcpuGettid` error, so a caller cannot tell "guest unresponsive"
from "guest rejected" there; the distinct `VcpuResponseTimeout` variant of
`VcpuManagerError` exists but is never produced by this handshake. -/
theorem gettid_errors_collapse :
    (∀ e : RecvTimeoutErr, gettidRecvOutcome (Except.error e) =
      Except.error VcpuManagerError.vcpuGettid) ∧
    gettidRecvOutcome (Except.ok VcpuResponse.other) =
      Except.error VcpuManagerError.vcpuGettid ∧
    (∀ r e, gettidRecvOutcome r ≠
      Except.error (VcpuManagerError.vcpuResponseTimeout e)) := by
  refine ⟨fun e => by cases e <;> rfl, rfl, fun r e => ?_⟩
  cases r with
  | ok v => cases v <;> simp [gettidRecvOutcome]
  | error er => simp [gettidRecvOutcome]

/-- Events of the vCPU start rendezvous: participant `i` reaching the shared
barrier, or participant `i` beginning guest execution.  `activate_vcpus`
creates the barrier with capacity `n + 1` (`Barrier::new(available_vcpus.len()
+ 1)`): the `n` started vCPU threads plus the calling thread. -/
inductive BarrierEvent (n : Nat) where
  | arrive (i : Fin (n + 1))
  | runGuest (i : Fin (n + 1))
deriving Repr, DecidableEq

/-- Modelled from the spec: validity of an interleaving of the start batch.
Each participant reaches the barrier at most once (each thread calls `wait`
once); a participant may begin guest execution only after it has itself
reached the barrier (the thread body waits before running guest code) and
the barrier has released, which a barrier of capacity `n + 1` does exactly
when the number of arrived participants equals `n + 1`. -/
def barrierOk (n : Nat) : List (BarrierEvent n) → Finset (Fin (n + 1)) → Bool
  | [], _ => true
  | BarrierEvent.arrive i :: tr, s =>
    if i ∈ s then false else barrierOk n tr (insert i s)
  | BarrierEvent.runGuest i :: tr, s =>
    if s.card = n + 1 ∧ i ∈ s then barrierOk n tr s else false

theorem barrierOk_aux (n : Nat) :
    ∀ (pre : List (BarrierEvent n)) (s : Finset (Fin (n + 1))) (i : Fin (n + 1))
      (post : List (BarrierEvent n)),
    barrierOk n (pre ++ BarrierEvent.runGuest i :: post) s = true →
    ∀ j : Fin (n + 1), j ∈ s ∨ BarrierEvent.arrive j ∈ pre := by
  intro pre
  induction pre with
  | nil =>
    intro s i post h j
    simp only [List.nil_append, barrierOk] at h
    by_cases hc : s.card = n + 1 ∧ i ∈ s
    · left
      have hu : s = Finset.univ :=
        Finset.eq_univ_of_card s (by rw [hc.1, Fintype.card_fin])
      rw [hu]
      exact Finset.mem_univ j
    · rw [if_neg hc] at h
      exact absurd h (by simp)
  | cons ev rest ih =>
    intro s i post h j
    cases ev with
    | arrive a =>
      simp only [List.cons_append, barrierOk] at h
      by_cases ha : a ∈ s
      · rw [if_pos ha] at h
        exact absurd h (by simp)
      · rw [if_neg ha] at h
        rcases ih (insert a s) i post h j with hj | hj
        · rcases Finset.mem_insert.mp hj with he | hj2
          · right
            rw [he]
            exact List.mem_cons_self _ _
          · exact Or.inl hj2
        · right
          exact List.mem_cons_of_mem _ hj
    | runGuest b =>
      simp only [List.cons_append, barrierOk] at h
      by_cases hc : s.card = n + 1 ∧ b ∈ s
      · rw [if_pos hc] at h
        rcases ih s i post h j with hj | hj
        · exact Or.inl hj
        · right
          exact List.mem_cons_of_mem _ hj
      · rw [if_neg hc] at h
        exact absurd h (by simp)

/-- Claim C9: when N vCPUs are started in one batch, in every valid
interleaving of the batch (the N started threads plus the caller of
`activate_vcpus`, sharing a barrier of capacity N + 1) no participant begins
guest execution before every one of the N + 1 participants has reached the
barrier: each of their arrive events precedes any guest-execution event. -/
theorem no_guest_before_all_arrive (n : Nat) (pre post : List (BarrierEvent n))
    (i : Fin (n + 1))
    (h : barrierOk n (pre ++ BarrierEvent.runGuest i :: post) ∅ = true) :
    ∀ j : Fin (n + 1), BarrierEvent.arrive j ∈ pre := fun j =>
  (barrierOk_aux n pre ∅ i post h j).resolve_left (by simp)

/-- Witness for C9: a concrete two-participant batch in which both arrivals
precede the guest-execution event. -/
theorem no_guest_before_all_arrive_witness :
    barrierOk 1 ([BarrierEvent.arrive 0, BarrierEvent.arrive 1] ++
      BarrierEvent.runGuest 0 :: []) ∅ = true ∧
    BarrierEvent.arrive (0 : Fin 2) ∈
      [BarrierEvent.arrive (0 : Fin 2), BarrierEvent.arrive 1] ∧
    BarrierEvent.arrive (1 : Fin 2) ∈
      [BarrierEvent.arrive (0 : Fin 2), BarrierEvent.arrive 1] :=
  ⟨by decide,
    no_guest_before_all_arrive 1 [BarrierEvent.arrive 0, BarrierEvent.arrive 1] []
      0 (by decide) 0,
    no_guest_before_all_arrive 1 [BarrierEvent.arrive 0, BarrierEvent.arrive 1] []
      0 (by decide) 1⟩

/-- Claim C7: for every value of the `fixed` argument, `allocate_legacy_irq`
with `shared = true` returns the fixed shared IRQ constant and leaves the
manager (in particular the legacy-IRQ pool) unchanged, and `free_legacy_irq`
applied to the shared IRQ constant also leaves the manager unchanged and does
not panic. -/
theorem shared_legacy_irq_bypasses_pool (l : Layout) (m : ResourceManager)
    (fixed : Option Nat) :
    ResourceManager.allocate_legacy_irq l m true fixed = (some l.sharedIrq, m) ∧
    ResourceManager.free_legacy_irq l m l.sharedIrq = some m := by
  constructor
  · rfl
  · unfold ResourceManager.free_legacy_irq
    rw [if_pos rfl]

/-- Claim C10: `free_mem_address` panics (modelled `none`) for every
base/size pair with `base + size` strictly greater than `GUEST_MEM_END`; the
guest-memory pool of a fresh manager reaches up to and including
`GUEST_MEM_END`; and a range returned by `allocate_mem_address` whose last
address equals `GUEST_MEM_END` cannot be freed: freeing it panics even though
it was a legitimately allocated range. -/
theorem free_mem_top_allocated_range_panics (l : Layout) (m m2 : ResourceManager)
    (maxS : Option Nat) (c : Constraint) (base : Nat)
    (hl : l.mmioLowEnd < l.guestMemEnd) :
    (∀ b s, l.guestMemEnd < b + s →
      ResourceManager.free_mem_address l m b s = none) ∧
    (∀ m0, ResourceManager.new l maxS = some m0 →
      ∃ r ∈ m0.mem_pool.capacity, r.2 = l.guestMemEnd) ∧
    (ResourceManager.allocate_mem_address m c = (some base, m2) →
      base + c.size - 1 = l.guestMemEnd →
      ResourceManager.free_mem_address l m2 base c.size = none) := by
  refine ⟨fun b s h => ResourceManager.free_mem_address_none_of_top l m b s h,
    fun m0 h => ResourceManager.new_mem_pool_reaches_end l maxS m0 hl h,
    fun halloc hend => ?_⟩
  have hsize : 1 ≤ c.size := by
    unfold ResourceManager.allocate_mem_address at halloc
    cases ha : m.mem_pool.allocate c with
    | none => rw [ha] at halloc; simp at halloc
    | some kt =>
      rw [ha] at halloc
      obtain ⟨k, t⟩ := kt
      exact IntervalTree.allocate_size_pos ha
  exact ResourceManager.free_mem_address_none_of_top l m2 base c.size (by omega)

/-- Witness for C10 at the concrete witness layout. -/
theorem free_mem_top_allocated_range_panics_witness :
    witnessLayout.mmioLowEnd < witnessLayout.guestMemEnd ∧
    ((∀ b s, witnessLayout.guestMemEnd < b + s →
      ResourceManager.free_mem_address witnessLayout ResourceManager.builderDefault b s =
        none) ∧
    (∀ m0, ResourceManager.new witnessLayout (some 3) = some m0 →
      ∃ r ∈ m0.mem_pool.capacity, r.2 = witnessLayout.guestMemEnd) ∧
    (ResourceManager.allocate_mem_address ResourceManager.builderDefault
        (Constraint.new 1) = (some 0, ResourceManager.builderDefault) →
      0 + (Constraint.new 1).size - 1 = witnessLayout.guestMemEnd →
      ResourceManager.free_mem_address witnessLayout ResourceManager.builderDefault 0
        (Constraint.new 1).size = none)) :=
  ⟨by decide,
    free_mem_top_allocated_range_panics witnessLayout ResourceManager.builderDefault
      ResourceManager.builderDefault (some 3) (Constraint.new 1) 0 (by decide)⟩

end Dragonball
